import Mathlib

/-!
Verification development for the gladiator observation engine
(src/src/index.ts, src/src/types.ts).

The TypeScript source is shallowly embedded:

* The JSONL observation store is modelled as a `List Observation` in file
  (append) order; JSON encoding/decoding and the filesystem are external
  collaborators and are abstracted away.
* JavaScript `Set` iteration order (insertion order, first occurrence wins)
  is modelled by `jsSetList`; JavaScript `Map` insertion-order semantics by
  association lists with `mapSet`-style updates.
* JavaScript string primitives (`split`, `join`, `toLowerCase`, `trim`,
  `slice`, `includes`) are modelled by structural functions over `Char`
  lists so that they evaluate inside the kernel.  They agree with the
  JavaScript originals on the ASCII data the engine handles (Lean's
  `Char.toLower` is ASCII-only, JavaScript's `toLowerCase` is Unicode-wide).
* IEEE-754 doubles are modelled by `ℚ` (for scores) or by exact integer
  inequalities (for the two threshold comparisons).  The two comparisons
  are exact translations: for naturals `i ≤ u`, the double comparison
  `i / u > 0.3` holds iff `10 * i > 3 * u` (the double nearest `0.3` lies
  strictly below `3/10`, and quotients of small naturals never round
  across it), and `df <= artifacts.length * 0.4` holds iff
  `5 * df ≤ 2 * artifacts.length`.
* The SHA-256 function from node's `crypto` is an external library and is
  abstracted as a function parameter `sha : String → String`.
* Nondeterministic inputs (`Date.now()`, `Math.random()`,
  `process.env.CLAUDE_SESSION_ID`, the artifacts discovered on disk) are
  passed as explicit parameters.
-/

/-! ## JavaScript-modelling utilities -/

/-- Iteration order of a JavaScript `Set` built from a list: duplicates
removed, first occurrence of each element kept, in insertion order. -/
def jsSetList {α : Type} [DecidableEq α] (l : List α) : List α :=
  l.foldl (fun acc x => if x ∈ acc then acc else acc ++ [x]) []

/-- Stable insertion into a list sorted by the boolean relation `le`. -/
def insertBy {α : Type} (le : α → α → Bool) (x : α) : List α → List α
  | [] => [x]
  | y :: ys => if le x y then x :: y :: ys else y :: insertBy le x ys

/-- Stable insertion sort; models the (stable) JavaScript `Array.sort`. -/
def sortBy {α : Type} (le : α → α → Bool) : List α → List α
  | [] => []
  | x :: xs => insertBy le x (sortBy le xs)

/-- JavaScript `arr.slice(-n)` for a natural `n`: the last `n` elements,
except that `n = 0` gives `slice(-0) = slice(0)`, the whole array. -/
def jsSliceNeg {α : Type} (l : List α) (n : Nat) : List α :=
  if n = 0 then l else l.drop (l.length - n)

/-- Split a character list at every character satisfying `p`; the JavaScript
`str.split(sep)` semantics (empty pieces kept, `"".split` gives `[""]`). -/
def splitCL (p : Char → Bool) : List Char → List (List Char)
  | [] => [[]]
  | c :: cs =>
    match splitCL p cs with
    | [] => [[]]
    | piece :: rest => if p c then [] :: piece :: rest else (c :: piece) :: rest

/-- JavaScript `s.split(sep)` for a one-character separator. -/
def splitOnChar (sep : Char) (s : String) : List String :=
  (splitCL (fun c => c = sep) s.toList).map String.mk

/-- JavaScript `s.split(/\s+/)` up to empty pieces, which every caller in the
source filters away by a length bound. -/
def splitWhitespace (s : String) : List String :=
  (splitCL Char.isWhitespace s.toList).map String.mk

/-- JavaScript `parts.join(sep)` for a one-character separator. -/
def joinStr (sep : Char) (parts : List String) : String :=
  String.mk (List.intercalate [sep] (parts.map String.toList))

/-- JavaScript `s.toLowerCase()` (ASCII fragment). -/
def toLowerStr (s : String) : String :=
  String.mk (s.toList.map Char.toLower)

/-- JavaScript `s.trim()` (ASCII whitespace fragment). -/
def trimStr (s : String) : String :=
  String.mk (((s.toList.dropWhile Char.isWhitespace).reverse.dropWhile
    Char.isWhitespace).reverse)

/-- JavaScript `s.slice(0, n)` on strings (by code unit = ASCII char). -/
def takeStr (n : Nat) (s : String) : String :=
  String.mk (s.toList.take n)

/-- JavaScript `s.slice(-n)` on strings for `n > 0`: the last `n` chars. -/
def lastChars (n : Nat) (s : String) : String :=
  String.mk (s.toList.drop (s.toList.length - n))

/-- Does `needle` occur at the head of `hay`? -/
def startsWithCL : List Char → List Char → Bool
  | [], _ => true
  | _ :: _, [] => false
  | a :: as, b :: bs => decide (a = b) && startsWithCL as bs

/-- Does `needle` occur anywhere inside `hay`? -/
def containsCL (needle : List Char) : List Char → Bool
  | [] => startsWithCL needle []
  | c :: cs => startsWithCL needle (c :: cs) || containsCL needle cs

/-- JavaScript `hay.includes(needle)`. -/
def includesStr (hay needle : String) : Bool :=
  containsCL needle.toList hay.toList

/-- JavaScript truthiness of an optional string field: `undefined` and the
empty string are falsy, every other string is truthy. -/
def optTruthy : Option String → Bool
  | none => false
  | some s => s ≠ ""

/-! ## Data model (src/src/types.ts) -/

/-- Artifact types the engine can recommend (`ARTIFACT_TYPES`). -/
inductive ArtifactType where
  | skill
  | rule
  | hook
  | agent
deriving DecidableEq, Repr

/-- Optional structured context attached to an observation (`ContextSchema`). -/
structure ObsContext where
  tool : Option String
  before : Option String
  after : Option String
  error : Option String
deriving DecidableEq, Repr

/-- Full observation record as stored in JSONL (`ObservationSchema`). -/
structure Observation where
  id : String
  ts : String
  session : String
  summary : String
  context : Option ObsContext
  tags : List String
  recommendation : String
  artifact_type : ArtifactType
  source : String
  session_ref : Option String
  processed : Bool
deriving DecidableEq, Repr

/-- A cluster of related observations (`ObservationGroup`). -/
structure ObservationGroup where
  tags : List String
  observations : List Observation
  artifact_type : ArtifactType
  suggested_name : String
deriving DecidableEq, Repr

/-- Kind of a discovered configuration file. -/
inductive ArtifactFileKind where
  | rule
  | hook
  | skill
deriving DecidableEq, Repr

/-- An existing rule, hook, or skill discovered on disk (`ExistingArtifact`).
Discovery itself reads the filesystem and is treated as an external
collaborator; artifacts enter the engine as values of this type. -/
structure ExistingArtifact where
  type : ArtifactFileKind
  name : String
  path : String
  keywords : List String
deriving DecidableEq, Repr

/-- Corpus-wide word frequency index (`CorpusIndex`).  `docFreq` models the
JavaScript `Map<string, number>` as an insertion-ordered association list;
`threshold` is `artifacts.length * 0.4` (exact as a rational). -/
structure CorpusIndex where
  docFreq : List (String × Nat)
  threshold : ℚ
  total : Nat

/-- Input of `gladiator_observe` (`ObserveInputSchema`). -/
structure ObserveInput where
  summary : String
  context : Option ObsContext
  tags : List String
  recommendation : Option String
  artifact_type : Option ArtifactType
  source : Option String
  session_ref : Option String
deriving DecidableEq, Repr

/-- Input of `gladiator_reflect` (`ReflectInputSchema`); the zod default for
`limit` is 50, applied before the handler runs. -/
structure ReflectInput where
  query : Option String
  limit : Nat
deriving DecidableEq, Repr

/-- Observable outcome of `handleObserve` (which box is returned). -/
inductive ObserveOutcome where
  | skippedNeedsBoth
  | skippedDuplicate (hash : String)
  | recorded (obs : Observation)
deriving DecidableEq, Repr

/-- Observable outcome of `handleReflect` (which branch ran and its data). -/
inductive ReflectResult where
  | queryRes (matching : List Observation)
  | statsRes (total unprocessedCount processedCount : Nat)
      (byType : List (ArtifactType × Nat)) (recent : List Observation)
  | clusterRes (analyzed : List Observation)
      (annotated : List (ObservationGroup × List ExistingArtifact))
deriving DecidableEq, Repr

/-! ## Deduplication (index.ts lines 129-137) -/

/-- `hashSummary`: SHA-256 of the lowercased, trimmed summary, truncated to
8 hex characters.  The hash itself (node `crypto`) is abstracted as `sha`. -/
def hashSummary (sha : String → String) (summary : String) : String :=
  takeStr 8 (sha (trimStr (toLowerStr summary)))

/-- `recentHashes`: hashes of the most recent `count` observations.  The
source builds a `Set`; only membership is ever used, so a list suffices. -/
def recentHashes (sha : String → String) (count : Nat)
    (store : List Observation) : List String :=
  (jsSliceNeg store count).map (fun o => hashSummary sha o.summary)

/-! ## Classification (index.ts lines 143-157) -/

/-- Word character for the JavaScript regex boundary `\b`. -/
def isWordChar (c : Char) : Bool :=
  c.isAlphanum || c = '_'

/-- Scan for an occurrence of `needle` in `hay` delimited by `\b` word
boundaries; `prev` is the character immediately before the scan position. -/
def hasBoundedAux (needle : List Char) (prev : Option Char) :
    List Char → Bool
  | [] =>
    decide (needle = []) &&
      (match prev with | none => true | some p => !isWordChar p)
  | c :: cs =>
    ((match prev with | none => true | some p => !isWordChar p) &&
      startsWithCL needle (c :: cs) &&
      (match (c :: cs).drop needle.length with
       | [] => true
       | d :: _ => !isWordChar d)) ||
    hasBoundedAux needle (some c) cs

/-- JavaScript `/\b token \b/.test(hay)` for a single alternation token. -/
def hasBoundedToken (hay : String) (needle : String) : Bool :=
  hasBoundedAux needle.toList none hay.toList

/-- `classifyArtifact`: auto-classify an observation's artifact type from its
tags and context (index.ts lines 144-150). -/
def classifyArtifact (tags : List String) (context : Option ObsContext) :
    ArtifactType :=
  let tagStr := toLowerStr (joinStr ' ' tags)
  if ["automat", "hook", "pre-tool", "post-tool", "trigger"].any
      (fun t => hasBoundedToken tagStr t) then ArtifactType.hook
  else if ["agent", "subagent", "review", "audit"].any
      (fun t => hasBoundedToken tagStr t) then ArtifactType.agent
  else if optTruthy (context.bind (fun c => c.before)) &&
      optTruthy (context.bind (fun c => c.after)) then ArtifactType.skill
  else ArtifactType.rule

/-- `defaultRecommendation` (index.ts lines 153-157). -/
def defaultRecommendation (summary : String) (context : Option ObsContext) :
    String :=
  match context.bind (fun c => c.after), context.bind (fun c => c.error) with
  | some a, _ => if a ≠ "" then "Next time: " ++ a else
      match context.bind (fun c => c.error) with
      | some e => if e ≠ "" then "Avoid: " ++ e else "Address: " ++ summary
      | none => "Address: " ++ summary
  | none, some e => if e ≠ "" then "Avoid: " ++ e else "Address: " ++ summary
  | none, none => "Address: " ++ summary

/-! ## Corpus-aware IDF scoring (index.ts lines 255-329) -/

/-- One `docFreq.set(word, (docFreq.get(word) ?? 0) + 1)` step with
JavaScript `Map` insertion-order semantics. -/
def bumpWord (m : List (String × Nat)) (w : String) : List (String × Nat) :=
  if m.any (fun p => p.1 = w) then
    m.map (fun p => if p.1 = w then (p.1, p.2 + 1) else p)
  else m ++ [(w, 1)]

/-- `map.get(w)` on the association-list model. -/
def lookupDF (m : List (String × Nat)) (w : String) : Option Nat :=
  (m.find? (fun p => p.1 = w)).map (fun p => p.2)

/-- `buildCorpusIndex` (index.ts lines 255-267): document frequency per
unique word per artifact, threshold `artifacts.length * 0.4`. -/
def buildCorpusIndex (artifacts : List ExistingArtifact) : CorpusIndex :=
  { docFreq := artifacts.foldl
      (fun m a => (jsSetList a.keywords).foldl bumpWord m) []
  , threshold := (artifacts.length : ℚ) * (2 / 5)
  , total := artifacts.length }

/-- `isRelevant` (index.ts line 303): `(docFreq.get(word) ?? 0) <= threshold`. -/
def isRelevantB (index : CorpusIndex) (word : String) : Bool :=
  decide ((((lookupDF index.docFreq word).getD 0 : Nat) : ℚ) ≤ index.threshold)

/-- The group's word set (index.ts lines 287-301): lowercased tags plus
lowercased whitespace-split tokens longer than 3 characters from every
member's summary and recommendation. -/
def groupWords (group : ObservationGroup) : List String :=
  jsSetList
    (group.tags.map toLowerStr ++
     group.observations.flatMap (fun o =>
       (splitWhitespace (toLowerStr o.summary)).filter (fun w => w.length > 3)) ++
     group.observations.flatMap (fun o =>
       (splitWhitespace (toLowerStr o.recommendation)).filter (fun w => w.length > 3)))

/-- Per-artifact cumulative score of `findOverlappingArtifacts`
(index.ts lines 305-322): IDF-weighted shared non-generic words plus a flat
5.0 name-match bonus. -/
def scoreArtifact (group : ObservationGroup) (index : CorpusIndex)
    (artifact : ExistingArtifact) : ℚ :=
  let artifactSet := jsSetList (artifact.keywords.filter (isRelevantB index))
  let base := (groupWords group).foldl
    (fun s w =>
      if isRelevantB index w && artifactSet.contains w then
        s + 1 / (((lookupDF index.docFreq w).getD 1 : Nat) : ℚ)
      else s) 0
  let nameMatch := group.tags.any (fun t =>
    includesStr artifact.name (toLowerStr t) ||
    includesStr (toLowerStr t) artifact.name)
  if nameMatch then base + 5 else base

/-- `findOverlappingArtifacts` (index.ts lines 281-329): keep artifacts with
score at least 3.0, sort descending by score (stable), return the top 2. -/
def findOverlappingArtifacts (group : ObservationGroup)
    (existing : List ExistingArtifact) (index : CorpusIndex) :
    List ExistingArtifact :=
  let scored := existing.map (fun a => (a, scoreArtifact group index a))
  ((sortBy (fun a b => decide (b.2 ≤ a.2))
      (scored.filter (fun s => decide ((3 : ℚ) ≤ s.2)))).take 2).map (fun s => s.1)

/-- Action recorded for a group in the reflect output (index.ts line 706):
update when some overlapping artifact was found, create otherwise. -/
def actionOf (overlaps : List ExistingArtifact) : String :=
  if 0 < overlaps.length then "update" else "create"

/-! ## Clustering (index.ts lines 342-407) -/

/-- JavaScript default `Array.sort()` on strings (stable, lexicographic by
code unit); applied to a tag list. -/
def sortTags (tags : List String) : List String :=
  sortBy (fun a b => decide (a ≤ b)) tags

/-- The group key of an observation (index.ts line 348): sorted tags joined
by commas, or a per-observation sentinel when untagged. -/
def obsKey (o : Observation) : String :=
  if o.tags.length > 0 then joinStr ',' (sortTags o.tags)
  else "untagged-" ++ o.id

/-- The Jaccard-style merge test of the inner loop (index.ts lines 352-357):
`union.size > 0 && intersection.length / union.size > 0.3` with the group's
tag set recovered by splitting the key on commas.  The double comparison is
exact as `10 * intersection > 3 * union`. -/
def simMergeB (groupKey : String) (tags : List String) : Bool :=
  let groupTags := jsSetList (splitOnChar ',' groupKey)
  let obsTags := jsSetList tags
  let inter := (obsTags.filter (fun t => groupTags.contains t)).length
  let union := (jsSetList (obsTags ++ groupTags)).length
  decide (0 < union) && decide (3 * union < 10 * inter)

/-- Append `o` to the first group whose key passes the merge test
(the `for ... break` of index.ts lines 351-362). -/
def mergeFirst (o : Observation) :
    List (String × List Observation) → Option (List (String × List Observation))
  | [] => none
  | (k, os) :: rest =>
    if simMergeB k o.tags then some ((k, os ++ [o]) :: rest)
    else (mergeFirst o rest).map (fun r => (k, os) :: r)

/-- JavaScript `Map.set` on the association-list model: overwrite in place
when the key exists, append otherwise. -/
def mapSet (groups : List (String × List Observation)) (k : String)
    (v : List Observation) : List (String × List Observation) :=
  if groups.any (fun p => p.1 = k) then
    groups.map (fun p => if p.1 = k then (k, v) else p)
  else groups ++ [(k, v)]

/-- One iteration of the clustering loop (index.ts lines 347-367). -/
def insertObs (groups : List (String × List Observation)) (o : Observation) :
    List (String × List Observation) :=
  match mergeFirst o groups with
  | some g => g
  | none => mapSet groups (obsKey o) [o]

/-- The partitioning pass of `clusterObservations`. -/
def clusterPhase1 (obs : List Observation) : List (String × List Observation) :=
  obs.foldl insertObs []

/-- Character kept by the slug regex `replace(/[^a-z0-9-]/gi, "")`: ASCII
letters of either case, digits, and the hyphen (the `i` flag makes the
letter range case-insensitive). -/
def isSlugKeepChar (c : Char) : Bool :=
  c.isAlphanum || c = '-'

/-- The slug derivation (index.ts lines 377-382): first two union tags joined
by hyphens, stripped by the regex, truncated to 25, with an id-suffix
fallback when the result is the (falsy) empty string. -/
def slugOf (allTags : List String) (firstId : String) : String :=
  let s := takeStr 25 (String.mk ((joinStr '-' (allTags.take 2)).toList.filter
    isSlugKeepChar))
  if s = "" then "unnamed-" ++ lastChars 4 firstId else s

/-- One `typeCounts.set(...)` step of the majority vote
(index.ts lines 385-388). -/
def bumpType (acc : List (ArtifactType × Nat)) (t : ArtifactType) :
    List (ArtifactType × Nat) :=
  if acc.any (fun p => p.1 = t) then
    acc.map (fun p => if p.1 = t then (p.1, p.2 + 1) else p)
  else acc ++ [(t, 1)]

/-- The vote table of a group, in encounter order. -/
def typeCounts (obs : List Observation) : List (ArtifactType × Nat) :=
  obs.foldl (fun acc o => bumpType acc o.artifact_type) []

/-- The strict-maximum scan of the majority vote (index.ts lines 389-396):
first entry strictly exceeding all earlier counts wins. -/
def majorityType (counts : List (ArtifactType × Nat)) : ArtifactType :=
  (counts.foldl (fun acc p => if acc.2 < p.2 then p else acc)
    (ArtifactType.rule, 0)).1

/-- Build the output group from a partition (index.ts lines 371-404). -/
def buildGroup (groupObs : List Observation) : Option ObservationGroup :=
  match groupObs with
  | [] => none
  | firstObs :: _ =>
    let allTags := jsSetList (groupObs.flatMap (fun o => o.tags))
    some { tags := allTags
         , observations := groupObs
         , artifact_type := majorityType (typeCounts groupObs)
         , suggested_name := slugOf allTags firstObs.id }

/-- `clusterObservations` (index.ts lines 342-407).  The in-place
`o.tags.sort()` of line 348 is modelled by sorting every observation's tags
up front: in the source each observation's tags are sorted before any other
use of them, so the two are equivalent. -/
def clusterObservations (obs : List Observation) : List ObservationGroup :=
  if obs.isEmpty then [] else
  let sorted := obs.map (fun o => { o with tags := sortTags o.tags })
  let groups := clusterPhase1 sorted
  sortBy (fun a b => decide (b.observations.length ≤ a.observations.length))
    ((groups.map (fun p => p.2)).filterMap buildGroup)

/-! ## Storage mutation (index.ts lines 62-123) -/

/-- `markProcessed` (index.ts lines 104-123) at the record level: set
`processed := true` on every record whose id is in `ids`. -/
def markProcessed (ids : List String) (store : List Observation) :
    List Observation :=
  store.map (fun o => if o.id ∈ ids then { o with processed := true } else o)

/-! ## Tool handlers (index.ts lines 522-725) -/

/-- `handleObserve` (index.ts lines 522-563).  `sha` abstracts SHA-256;
`newId`, `newTs`, `newSession` abstract `Date.now`/`Math.random`/the
environment.  Returns the outcome and the new store. -/
def handleObserve (sha : String → String) (newId newTs newSession : String)
    (input : ObserveInput) (store : List Observation) :
    ObserveOutcome × List Observation :=
  if optTruthy (input.context.bind (fun c => c.before)) &&
      !optTruthy (input.context.bind (fun c => c.after)) then
    (ObserveOutcome.skippedNeedsBoth, store)
  else
    let hash := hashSummary sha input.summary
    if (recentHashes sha 100 store).contains hash then
      (ObserveOutcome.skippedDuplicate hash, store)
    else
      let obs : Observation :=
        { id := newId
        , ts := newTs
        , session := newSession
        , summary := input.summary
        , context := input.context
        , tags := input.tags
        , recommendation := (input.recommendation.getD
            (defaultRecommendation input.summary input.context))
        , artifact_type := (input.artifact_type.getD
            (classifyArtifact input.tags input.context))
        , source := input.source.getD "manual"
        , session_ref := input.session_ref
        , processed := false }
      (ObserveOutcome.recorded obs, store ++ [obs])

/-- The query filter of `handleReflectQuery` (index.ts lines 601-610). -/
def matchesQuery (q : String) (o : Observation) : Bool :=
  includesStr (toLowerStr o.summary) q ||
  o.tags.any (fun t => includesStr (toLowerStr t) q) ||
  includesStr (toLowerStr o.recommendation) q ||
  (match o.context.bind (fun c => c.error) with
   | some e => includesStr (toLowerStr e) q
   | none => false) ||
  includesStr (toLowerStr o.source) q ||
  (match o.session_ref with
   | some s => includesStr (toLowerStr s) q
   | none => false)

/-- `handleReflectQuery` (index.ts lines 594-632): filter all observations,
then `slice(-limit)`. -/
def handleReflectQuery (allObs : List Observation) (query : String)
    (limit : Nat) : List Observation :=
  jsSliceNeg (allObs.filter (matchesQuery (toLowerStr query))) limit

/-- `handleReflect` (index.ts lines 565-587 and 655-725).  `existing`
abstracts `discoverExistingArtifacts()` (filesystem).  Returns the result
and the new store; only the cluster branch rewrites the store. -/
def handleReflect (input : ReflectInput) (existing : List ExistingArtifact)
    (store : List Observation) : ReflectResult × List Observation :=
  if optTruthy input.query then
    (ReflectResult.queryRes
      (handleReflectQuery store (input.query.getD "") input.limit), store)
  else
    let unprocessed := store.filter (fun o => !o.processed)
    if unprocessed.isEmpty then
      (ReflectResult.statsRes store.length 0 store.length
        (typeCounts store) (jsSliceNeg store 5), store)
    else
      let limited := jsSliceNeg unprocessed input.limit
      let groups := clusterObservations limited
      let index := buildCorpusIndex existing
      let annotated := groups.map
        (fun g => (g, findOverlappingArtifacts g existing index))
      (ReflectResult.clusterRes limited annotated,
        markProcessed (limited.map (fun o => o.id)) store)

/-! ## Lemmas about the JavaScript-modelling utilities -/

theorem foldl_setStep_mem {α : Type} [DecidableEq α] (l : List α) (acc : List α)
    (x : α) :
    (x ∈ l.foldl (fun acc y => if y ∈ acc then acc else acc ++ [y]) acc) ↔
      x ∈ acc ∨ x ∈ l := by
  induction l generalizing acc with
  | nil => simp
  | cons a t ih =>
    simp only [List.foldl_cons]
    by_cases h : a ∈ acc
    · rw [if_pos h, ih]
      constructor
      · rintro (hx | hx)
        · exact Or.inl hx
        · exact Or.inr (List.mem_cons_of_mem _ hx)
      · rintro (hx | hx)
        · exact Or.inl hx
        · rcases List.mem_cons.mp hx with rfl | hx
          · exact Or.inl h
          · exact Or.inr hx
    · rw [if_neg h, ih]
      simp only [List.mem_append, List.mem_singleton, List.mem_cons]
      tauto

theorem mem_jsSetList {α : Type} [DecidableEq α] (l : List α) (x : α) :
    x ∈ jsSetList l ↔ x ∈ l := by
  unfold jsSetList
  rw [foldl_setStep_mem]
  simp

theorem foldl_setStep_nodup {α : Type} [DecidableEq α] (l : List α)
    (acc : List α) (h : acc.Nodup) :
    (l.foldl (fun acc y => if y ∈ acc then acc else acc ++ [y]) acc).Nodup := by
  induction l generalizing acc with
  | nil => simpa using h
  | cons a t ih =>
    simp only [List.foldl_cons]
    by_cases ha : a ∈ acc
    · rw [if_pos ha]; exact ih acc h
    · rw [if_neg ha]
      refine ih _ ?_
      simp [List.nodup_append, h, ha]

theorem nodup_jsSetList {α : Type} [DecidableEq α] (l : List α) :
    (jsSetList l).Nodup :=
  foldl_setStep_nodup l [] List.nodup_nil

theorem toFinset_jsSetList {α : Type} [DecidableEq α] (l : List α) :
    (jsSetList l).toFinset = l.toFinset := by
  ext x
  simp [List.mem_toFinset, mem_jsSetList]

theorem length_jsSetList {α : Type} [DecidableEq α] (l : List α) :
    (jsSetList l).length = l.toFinset.card := by
  rw [← toFinset_jsSetList, List.toFinset_card_of_nodup (nodup_jsSetList l)]

theorem jsSetList_append_singleton {α : Type} [DecidableEq α] (l : List α)
    (x : α) :
    jsSetList (l ++ [x]) =
      if x ∈ jsSetList l then jsSetList l else jsSetList l ++ [x] := by
  unfold jsSetList
  rw [List.foldl_append]
  rfl

theorem mem_insertBy {α : Type} (le : α → α → Bool) (x y : α) (l : List α) :
    y ∈ insertBy le x l ↔ y = x ∨ y ∈ l := by
  induction l with
  | nil => simp [insertBy]
  | cons a t ih =>
    by_cases h : le x a
    · simp [insertBy, h, List.mem_cons]
    · have h' : le x a = false := by simpa using h
      simp only [insertBy, h', Bool.false_eq_true, if_false, List.mem_cons, ih]
      tauto

theorem mem_sortBy {α : Type} (le : α → α → Bool) (x : α) (l : List α) :
    x ∈ sortBy le l ↔ x ∈ l := by
  induction l with
  | nil => simp [sortBy]
  | cons a t ih =>
    rw [sortBy, mem_insertBy, ih, List.mem_cons]

theorem length_insertBy {α : Type} (le : α → α → Bool) (x : α) (l : List α) :
    (insertBy le x l).length = l.length + 1 := by
  induction l with
  | nil => rfl
  | cons a t ih =>
    unfold insertBy
    by_cases h : le x a
    · simp [h]
    · simp [h, ih]

theorem length_sortBy {α : Type} (le : α → α → Bool) (l : List α) :
    (sortBy le l).length = l.length := by
  induction l with
  | nil => rfl
  | cons a t ih =>
    rw [sortBy, length_insertBy, ih]
    rfl

theorem pairwise_insertBy {α : Type} (le : α → α → Bool)
    (htot : ∀ a b, le a b = true ∨ le b a = true)
    (htr : ∀ a b c, le a b = true → le b c = true → le a c = true)
    (x : α) (l : List α) (h : l.Pairwise (fun a b => le a b = true)) :
    (insertBy le x l).Pairwise (fun a b => le a b = true) := by
  induction l with
  | nil => simp [insertBy]
  | cons a t ih =>
    rcases List.pairwise_cons.mp h with ⟨ha, ht⟩
    unfold insertBy
    by_cases hc : le x a
    · rw [if_pos hc, List.pairwise_cons]
      refine ⟨?_, h⟩
      intro y hy
      rcases List.mem_cons.mp hy with rfl | hy
      · exact hc
      · exact htr x a y hc (ha y hy)
    · rw [if_neg hc, List.pairwise_cons]
      refine ⟨?_, ih ht⟩
      intro y hy
      rcases (mem_insertBy le x y t).mp hy with h1 | hy
      · subst h1
        rcases htot y a with h1 | h1
        · exact absurd h1 hc
        · exact h1
      · exact ha y hy

theorem pairwise_sortBy {α : Type} (le : α → α → Bool)
    (htot : ∀ a b, le a b = true ∨ le b a = true)
    (htr : ∀ a b c, le a b = true → le b c = true → le a c = true)
    (l : List α) :
    (sortBy le l).Pairwise (fun a b => le a b = true) := by
  induction l with
  | nil => simp [sortBy]
  | cons a t ih => exact pairwise_insertBy le htot htr a (sortBy le t) ih

theorem sortBy_eq_self {α : Type} (le : α → α → Bool) (l : List α)
    (h : l.Pairwise (fun a b => le a b = true)) :
    sortBy le l = l := by
  induction l with
  | nil => rfl
  | cons a t ih =>
    rcases List.pairwise_cons.mp h with ⟨ha, ht⟩
    rw [sortBy, ih ht]
    cases t with
    | nil => rfl
    | cons b t' =>
      unfold insertBy
      rw [if_pos (ha b (List.mem_cons_self b t'))]

theorem sortTags_mem (t : String) (l : List String) :
    t ∈ sortTags l ↔ t ∈ l :=
  mem_sortBy _ t l

theorem sortTags_length (l : List String) :
    (sortTags l).length = l.length :=
  length_sortBy _ l

theorem string_le_total (a b : String) :
    decide (a ≤ b) = true ∨ decide (b ≤ a) = true := by
  rcases le_total a b with h | h
  · exact Or.inl (decide_eq_true h)
  · exact Or.inr (decide_eq_true h)

theorem string_le_trans (a b c : String) :
    decide (a ≤ b) = true → decide (b ≤ c) = true → decide (a ≤ c) = true := by
  intro h1 h2
  exact decide_eq_true (le_trans (of_decide_eq_true h1) (of_decide_eq_true h2))

theorem sortTags_idem (l : List String) :
    sortTags (sortTags l) = sortTags l :=
  sortBy_eq_self _ _ (pairwise_sortBy _ string_le_total string_le_trans l)

theorem sortTags_singleton (t : String) : sortTags [t] = [t] := rfl

theorem jsSliceNeg_zero {α : Type} (l : List α) : jsSliceNeg l 0 = l := rfl

theorem jsSliceNeg_suffix {α : Type} (l : List α) (n : Nat) :
    (jsSliceNeg l n).IsSuffix l := by
  unfold jsSliceNeg
  by_cases h : n = 0
  · rw [if_pos h]
  · rw [if_neg h]
    exact List.drop_suffix _ _

theorem jsSliceNeg_sublist {α : Type} (l : List α) (n : Nat) :
    (jsSliceNeg l n).Sublist l :=
  (jsSliceNeg_suffix l n).sublist

theorem jsSliceNeg_subset {α : Type} (l : List α) (n : Nat) :
    ∀ x ∈ jsSliceNeg l n, x ∈ l :=
  fun x hx => (jsSliceNeg_sublist l n).mem hx

theorem length_jsSliceNeg_le {α : Type} (l : List α) (n : Nat) (h : 0 < n) :
    (jsSliceNeg l n).length ≤ n := by
  unfold jsSliceNeg
  rw [if_neg (Nat.pos_iff_ne_zero.mp h)]
  rw [List.length_drop]
  omega

theorem jsSliceNeg_append {α : Type} (l l' : List α) (n : Nat)
    (h : l'.length = n) (hn : n ≠ 0) : jsSliceNeg (l ++ l') n = l' := by
  unfold jsSliceNeg
  rw [if_neg hn, List.length_append, h]
  have : l.length + n - n = l.length := by omega
  rw [this, List.drop_left]

theorem splitCL_ne_nil (p : Char → Bool) (l : List Char) :
    splitCL p l ≠ [] := by
  cases l with
  | nil => simp [splitCL]
  | cons c cs =>
    cases h : splitCL p cs with
    | nil => simp [splitCL, h]
    | cons piece rest =>
      simp only [splitCL, h]
      split <;> simp

theorem splitCL_cons_sep (p : Char → Bool) (sep : Char) (hp : p sep = true)
    (l : List Char) : splitCL p (sep :: l) = [] :: splitCL p l := by
  cases h : splitCL p l with
  | nil => exact absurd h (splitCL_ne_nil p l)
  | cons piece rest => simp [splitCL, h, hp]

theorem splitCL_append_clean (p : Char → Bool) (xs : List Char)
    (h : ∀ c ∈ xs, p c = false) (rest : List Char) (piece : List Char)
    (r : List (List Char)) (hr : splitCL p rest = piece :: r) :
    splitCL p (xs ++ rest) = (xs ++ piece) :: r := by
  induction xs with
  | nil => simpa using hr
  | cons x xs' ih =>
    have hx : p x = false := h x (List.mem_cons_self x xs')
    have ih' := ih (fun c hc => h c (List.mem_cons_of_mem x hc))
    simp only [List.cons_append, splitCL, List.append_eq, ih', hx,
      Bool.false_eq_true, if_false]

theorem splitCL_clean (p : Char → Bool) (xs : List Char)
    (h : ∀ c ∈ xs, p c = false) : splitCL p xs = [xs] := by
  have := splitCL_append_clean p xs h [] [] [] rfl
  simpa using this

theorem intercalate_cons_cons {α : Type} (sep : List α) (x y : List α)
    (r : List (List α)) :
    List.intercalate sep (x :: y :: r) =
      x ++ sep ++ List.intercalate sep (y :: r) := by
  simp [List.intercalate, List.intersperse_cons_cons, List.append_assoc]

theorem splitCL_intercalate (p : Char → Bool) (sep : Char)
    (hsep : p sep = true) (parts : List (List Char)) (hne : parts ≠ [])
    (hcl : ∀ pt ∈ parts, ∀ c ∈ pt, p c = false) :
    splitCL p (List.intercalate [sep] parts) = parts := by
  induction parts with
  | nil => exact absurd rfl hne
  | cons x rest ih =>
    cases rest with
    | nil =>
      have : List.intercalate [sep] [x] = x := by
        simp [List.intercalate]
      rw [this]
      exact splitCL_clean p x (hcl x (List.mem_cons_self x []))
    | cons y rest' =>
      rw [intercalate_cons_cons]
      have hx : ∀ c ∈ x, p c = false := hcl x (List.mem_cons_self _ _)
      have hrec : splitCL p (List.intercalate [sep] (y :: rest')) = y :: rest' :=
        ih (by simp) (fun pt hpt => hcl pt (List.mem_cons_of_mem x hpt))
      have hsepcons :
          splitCL p (sep :: List.intercalate [sep] (y :: rest')) =
            [] :: y :: rest' := by
        rw [splitCL_cons_sep p sep hsep, hrec]
      rw [List.append_assoc]
      have := splitCL_append_clean p x hx
        (sep :: List.intercalate [sep] (y :: rest')) [] (y :: rest')
        (by simpa using hsepcons)
      simpa using this

theorem stringMk_toList : ∀ s : String, String.mk s.toList = s
  | ⟨_⟩ => rfl

theorem toList_stringMk (l : List Char) : (String.mk l).toList = l := rfl

theorem toList_joinStr (sep : Char) (parts : List String) :
    (joinStr sep parts).toList = List.intercalate [sep] (parts.map String.toList) :=
  rfl

theorem splitOnChar_joinStr (sep : Char) (parts : List String)
    (hne : parts ≠ []) (h : ∀ s ∈ parts, sep ∉ s.toList) :
    splitOnChar sep (joinStr sep parts) = parts := by
  unfold splitOnChar
  rw [toList_joinStr]
  rw [splitCL_intercalate (fun c => decide (c = sep)) sep (by simp)
    (parts.map String.toList) (by simpa using hne) ?_]
  · rw [List.map_map]
    have : (String.mk ∘ String.toList) = id := funext stringMk_toList
    rw [this, List.map_id]
  · intro pt hpt c hc
    rcases List.mem_map.mp hpt with ⟨s, hs, rfl⟩
    have : c ≠ sep := fun hcs => h s hs (hcs ▸ hc)
    simpa using this

theorem splitOnChar_self (sep : Char) (s : String) (h : sep ∉ s.toList) :
    splitOnChar sep s = [s] := by
  unfold splitOnChar
  rw [splitCL_clean]
  · simp [stringMk_toList]
  · intro c hc
    have : c ≠ sep := fun hcs => h (hcs ▸ hc)
    simpa using this

theorem sep_mem_joinStr_two (sep : Char) (x y : String) (r : List String) :
    sep ∈ (joinStr sep (x :: y :: r)).toList := by
  rw [toList_joinStr]
  simp only [List.map_cons]
  rw [intercalate_cons_cons]
  simp

theorem string_append_left_cancel {a b : String} (p : String)
    (h : p ++ a = p ++ b) : a = b := by
  have hd : (p ++ a).data = (p ++ b).data := congrArg String.data h
  rw [String.data_append, String.data_append] at hd
  have h2 := List.append_cancel_left hd
  rw [← stringMk_toList a, ← stringMk_toList b]
  exact congrArg String.mk h2

theorem list_contains_iff {α : Type} [DecidableEq α] (l : List α) (a : α) :
    l.contains a = true ↔ a ∈ l := by
  simp [List.contains]

theorem observation_eta (o : Observation) : { o with tags := o.tags } = o := rfl

/-! ## Claim C8: fingerprint invariance -/

/-- Lowercase hexadecimal digit. -/
def isHexLower (c : Char) : Bool :=
  c.isDigit || ('a' ≤ c && c ≤ 'f')

/-- C8: any two summaries that agree after lowercasing and trimming get the
same fingerprint; when the underlying hash emits 64 lowercase hex characters
the fingerprint is exactly 8 hex characters; in particular
`fingerprint("Fix Bug ") = fingerprint("fix bug")` for every hash. -/
theorem hashSummary_invariant :
    (∀ (sha : String → String) (s1 s2 : String),
      trimStr (toLowerStr s1) = trimStr (toLowerStr s2) →
      hashSummary sha s1 = hashSummary sha s2) ∧
    (∀ (sha : String → String) (s : String),
      (sha (trimStr (toLowerStr s))).toList.length = 64 →
      (∀ c ∈ (sha (trimStr (toLowerStr s))).toList, isHexLower c = true) →
      (hashSummary sha s).toList.length = 8 ∧
      ∀ c ∈ (hashSummary sha s).toList, isHexLower c = true) ∧
    (∀ sha : String → String,
      hashSummary sha "Fix Bug " = hashSummary sha "fix bug") := by
  refine ⟨?_, ?_, ?_⟩
  · intro sha s1 s2 h
    unfold hashSummary
    rw [h]
  · intro sha s h1 h2
    constructor
    · show ((sha (trimStr (toLowerStr s))).toList.take 8).length = 8
      rw [List.length_take, h1]
      omega
    · intro c hc
      exact h2 c (List.mem_of_mem_take hc)
  · intro sha
    unfold hashSummary
    have h : trimStr (toLowerStr "Fix Bug ") = trimStr (toLowerStr "fix bug") := by
      decide
    rw [h]

/-- A concrete 64-character lowercase hex digest used to instantiate C8. -/
def hexSample : String :=
  "0123456789abcdef0123456789abcdef0123456789abcdef0123456789abcdef"

theorem hashSummary_invariant_witness :
    hashSummary (fun _ => hexSample) "Fix Bug " =
      hashSummary (fun _ => hexSample) "fix bug" ∧
    (hashSummary (fun _ => hexSample) "Fix Bug ").toList.length = 8 := by
  refine ⟨hashSummary_invariant.1 _ _ _ (by decide),
    (hashSummary_invariant.2.1 (fun _ => hexSample) "Fix Bug "
      (by decide) (by decide)).1⟩

/-! ## Claim C5: the correction quality gate -/

/-- C5 (amended): a call whose `before` is truthy (present and nonempty) and
whose `after` is falsy (absent or empty) is rejected with the needs-both
outcome before hashing (the result does not depend on the hash function) and
before any storage mutation; with both fields truthy and no duplicate in the
window, the call is accepted and appended. -/
theorem handleObserve_gate_amended :
    (∀ (sha : String → String) (nid nts nsess : String) (input : ObserveInput)
        (store : List Observation),
      optTruthy (input.context.bind (fun c => c.before)) = true →
      optTruthy (input.context.bind (fun c => c.after)) = false →
      handleObserve sha nid nts nsess input store =
        (ObserveOutcome.skippedNeedsBoth, store) ∧
      ∀ sha' : String → String,
        handleObserve sha nid nts nsess input store =
          handleObserve sha' nid nts nsess input store) ∧
    (∀ (sha : String → String) (nid nts nsess : String) (input : ObserveInput)
        (store : List Observation),
      optTruthy (input.context.bind (fun c => c.before)) = true →
      optTruthy (input.context.bind (fun c => c.after)) = true →
      hashSummary sha input.summary ∉ recentHashes sha 100 store →
      ∃ obs : Observation,
        handleObserve sha nid nts nsess input store =
          (ObserveOutcome.recorded obs, store ++ [obs])) := by
  constructor
  · intro sha nid nts nsess input store hb ha
    constructor
    · simp [handleObserve, hb, ha]
    · intro sha'
      simp [handleObserve, hb, ha]
  · intro sha nid nts nsess input store hb ha hnd
    have hc : (recentHashes sha 100 store).contains
        (hashSummary sha input.summary) = false := by
      cases hcc : (recentHashes sha 100 store).contains
          (hashSummary sha input.summary)
      · rfl
      · exact absurd ((list_contains_iff _ _).mp hcc) hnd
    refine ⟨{ id := nid, ts := nts, session := nsess, summary := input.summary
            , context := input.context, tags := input.tags
            , recommendation := input.recommendation.getD
                (defaultRecommendation input.summary input.context)
            , artifact_type := input.artifact_type.getD
                (classifyArtifact input.tags input.context)
            , source := input.source.getD "manual"
            , session_ref := input.session_ref
            , processed := false }, ?_⟩
    simp [handleObserve, hb, ha, hc]
    exact hnd

/-- An observe input whose `before` is present but empty and whose `after` is
absent: present in the claim's sense, falsy in JavaScript. -/
def gateCexInput : ObserveInput :=
  { summary := "the build failed because the lockfile was stale"
  , context := some { tool := none, before := some "", after := none, error := none }
  , tags := []
  , recommendation := none
  , artifact_type := none
  , source := none
  , session_ref := none }

/-- C5 counterexample: `before` is present (as an empty string) and `after`
is absent, yet the call is not rejected with the needs-both outcome — it is
recorded and stored, because the JavaScript guard tests truthiness, not
presence. -/
theorem handleObserve_gate_cex :
    (gateCexInput.context.bind (fun c => c.before)).isSome = true ∧
    (gateCexInput.context.bind (fun c => c.after)).isSome = false ∧
    (handleObserve (fun s => s) "obs_1_aaaa" "2024-01-01T00:00:00Z" "sess"
        gateCexInput []).1 ≠ ObserveOutcome.skippedNeedsBoth ∧
    ((handleObserve (fun s => s) "obs_1_aaaa" "2024-01-01T00:00:00Z" "sess"
        gateCexInput []).2).length = 1 := by
  decide

/-- A correction input with a nonempty `before` and no `after`. -/
def gateBeforeInput : ObserveInput :=
  { summary := "the test run needed a manual retry to pass cleanly"
  , context := some { tool := none, before := some "ran tests once", after := none
                    , error := none }
  , tags := []
  , recommendation := none
  , artifact_type := none
  , source := none
  , session_ref := none }

/-- The same correction with both `before` and `after` nonempty. -/
def gateBothInput : ObserveInput :=
  { summary := "the test run needed a manual retry to pass cleanly"
  , context := some { tool := none, before := some "ran tests once"
                    , after := some "ran tests twice", error := none }
  , tags := []
  , recommendation := none
  , artifact_type := none
  , source := none
  , session_ref := none }

theorem handleObserve_gate_witness :
    handleObserve (fun s => s) "obs_2_bbbb" "t" "sess" gateBeforeInput [] =
      (ObserveOutcome.skippedNeedsBoth, []) ∧
    ((handleObserve (fun s => s) "obs_2_bbbb" "t" "sess" gateBothInput []).2).length
      = 1 := by
  constructor
  · exact (handleObserve_gate_amended.1 (fun s => s) "obs_2_bbbb" "t" "sess"
      gateBeforeInput [] (by decide) (by decide)).1
  · rcases handleObserve_gate_amended.2 (fun s => s) "obs_2_bbbb" "t" "sess"
      gateBothInput [] (by decide) (by decide) (by decide) with ⟨obs, h⟩
    rw [h]
    simp

/-! ## Claim C4: the deduplication window -/

/-- C4 (amended): provided the correction quality gate does not trip, a call
whose fingerprint is among the fingerprints of the 100 most recently stored
observations is rejected as a duplicate with nothing stored; on an empty
store no call is ever rejected as a duplicate; and once 100 fresher records
with different fingerprints sit at the end of the store, the same summary is
recorded again (the window holds only the last 100 records). -/
theorem handleObserve_dedup_amended :
    (∀ (sha : String → String) (nid nts nsess : String) (input : ObserveInput)
        (store : List Observation),
      (optTruthy (input.context.bind (fun c => c.before)) &&
        !optTruthy (input.context.bind (fun c => c.after))) = false →
      hashSummary sha input.summary ∈ recentHashes sha 100 store →
      handleObserve sha nid nts nsess input store =
        (ObserveOutcome.skippedDuplicate (hashSummary sha input.summary),
          store)) ∧
    (∀ (sha : String → String) (nid nts nsess : String) (input : ObserveInput)
        (h' : String),
      (handleObserve sha nid nts nsess input []).1 ≠
        ObserveOutcome.skippedDuplicate h') ∧
    (∀ (sha : String → String) (nid nts nsess : String) (input : ObserveInput)
        (pre others : List Observation),
      others.length = 100 →
      (∀ o ∈ others, hashSummary sha o.summary ≠ hashSummary sha input.summary) →
      (optTruthy (input.context.bind (fun c => c.before)) &&
        !optTruthy (input.context.bind (fun c => c.after))) = false →
      ∃ obs : Observation,
        handleObserve sha nid nts nsess input (pre ++ others) =
          (ObserveOutcome.recorded obs, (pre ++ others) ++ [obs])) := by
  refine ⟨?_, ?_, ?_⟩
  · intro sha nid nts nsess input store hg hmem
    have hc : (recentHashes sha 100 store).contains
        (hashSummary sha input.summary) = true :=
      (list_contains_iff _ _).mpr hmem
    simp only [handleObserve, hg, Bool.false_eq_true, if_false, hc, if_true]
  · intro sha nid nts nsess input h'
    have he : recentHashes sha 100 [] = [] := rfl
    unfold handleObserve
    by_cases hg : (optTruthy (input.context.bind fun c => c.before) &&
        !optTruthy (input.context.bind fun c => c.after)) = true
    · rw [if_pos hg]
      simp
    · rw [if_neg hg, he]
      simp
  · intro sha nid nts nsess input pre others h100 hdiff hg
    have hw : recentHashes sha 100 (pre ++ others) =
        others.map (fun o => hashSummary sha o.summary) := by
      unfold recentHashes
      rw [jsSliceNeg_append pre others 100 h100 (by decide)]
    have hnd : hashSummary sha input.summary ∉ recentHashes sha 100 (pre ++ others) := by
      rw [hw]
      intro hmem
      rcases List.mem_map.mp hmem with ⟨o, ho, heq⟩
      exact hdiff o ho heq
    have hc : (recentHashes sha 100 (pre ++ others)).contains
        (hashSummary sha input.summary) = false := by
      cases hcc : (recentHashes sha 100 (pre ++ others)).contains
          (hashSummary sha input.summary)
      · rfl
      · exact absurd ((list_contains_iff _ _).mp hcc) hnd
    refine ⟨{ id := nid, ts := nts, session := nsess, summary := input.summary
            , context := input.context, tags := input.tags
            , recommendation := input.recommendation.getD
                (defaultRecommendation input.summary input.context)
            , artifact_type := input.artifact_type.getD
                (classifyArtifact input.tags input.context)
            , source := input.source.getD "manual"
            , session_ref := input.session_ref
            , processed := false }, ?_⟩
    simp only [handleObserve, hg, Bool.false_eq_true, if_false, hc, if_true]

/-- A stored observation whose summary will be re-submitted. -/
def dedupCexObs : Observation :=
  { id := "obs_0_aaaa", ts := "2024-01-01T00:00:00Z", session := "s"
  , summary := "the build failed because the lockfile was stale"
  , context := none, tags := [], recommendation := ""
  , artifact_type := ArtifactType.rule, source := "manual"
  , session_ref := none, processed := false }

/-- A re-submission of the same summary that also trips the quality gate. -/
def dedupCexInput : ObserveInput :=
  { summary := "the build failed because the lockfile was stale"
  , context := some { tool := none, before := some "retried the build"
                    , after := none, error := none }
  , tags := []
  , recommendation := none
  , artifact_type := none
  , source := none
  , session_ref := none }

/-- C4 counterexample: a call whose fingerprint matches the window is not
returned as a duplicate — the quality gate fires first and the call gets the
needs-both outcome instead. -/
theorem handleObserve_dedup_cex :
    hashSummary (fun s => s) dedupCexInput.summary ∈
      recentHashes (fun s => s) 100 [dedupCexObs] ∧
    (handleObserve (fun s => s) "obs_1_bbbb" "t" "s" dedupCexInput
        [dedupCexObs]).1 = ObserveOutcome.skippedNeedsBoth := by
  decide

/-- The duplicate re-submission without any context. -/
def dupPlainInput : ObserveInput :=
  { summary := "the build failed because the lockfile was stale"
  , context := none, tags := [], recommendation := none
  , artifact_type := none, source := none, session_ref := none }

/-- Filler observation with a different fingerprint. -/
def padObs : Observation :=
  { id := "obs_9_pppp", ts := "2024-01-02T00:00:00Z", session := "s"
  , summary := "completely different summary about deployment scripts"
  , context := none, tags := [], recommendation := ""
  , artifact_type := ArtifactType.rule, source := "manual"
  , session_ref := none, processed := false }

theorem handleObserve_dedup_witness :
    handleObserve (fun s => s) "obs_1_bbbb" "t" "s" dupPlainInput [dedupCexObs] =
      (ObserveOutcome.skippedDuplicate
        (hashSummary (fun s => s) dupPlainInput.summary), [dedupCexObs]) ∧
    (handleObserve (fun s => s) "obs_1_cccc" "t" "s" dupPlainInput []).1 ≠
      ObserveOutcome.skippedDuplicate
        (hashSummary (fun s => s) dupPlainInput.summary) ∧
    ((handleObserve (fun s => s) "obs_1_dddd" "t" "s" dupPlainInput
        ([dedupCexObs] ++ List.replicate 100 padObs)).2).length = 102 := by
  refine ⟨?_, ?_, ?_⟩
  · exact handleObserve_dedup_amended.1 (fun s => s) "obs_1_bbbb" "t" "s"
      dupPlainInput [dedupCexObs] (by decide) (by decide)
  · exact handleObserve_dedup_amended.2.1 (fun s => s) "obs_1_cccc" "t" "s"
      dupPlainInput _
  · have hdiff : ∀ o ∈ List.replicate 100 padObs,
        hashSummary (fun s => s) o.summary ≠
          hashSummary (fun s => s) dupPlainInput.summary := by
      intro o ho
      rw [List.eq_of_mem_replicate ho]
      decide
    rcases handleObserve_dedup_amended.2.2 (fun s => s) "obs_1_dddd" "t" "s"
      dupPlainInput [dedupCexObs] (List.replicate 100 padObs)
      (by simp) hdiff (by decide) with ⟨obs, h⟩
    rw [h]
    simp

/-! ## Branch lemmas for handleReflect and markProcessed -/

theorem handleReflect_query_eq (q : String) (limit : Nat)
    (existing : List ExistingArtifact) (store : List Observation)
    (hq : q ≠ "") :
    handleReflect ⟨some q, limit⟩ existing store =
      (ReflectResult.queryRes
        (jsSliceNeg (store.filter (matchesQuery (toLowerStr q))) limit),
       store) := by
  have ht : optTruthy (some q) = true := by simpa [optTruthy] using hq
  simp [handleReflect, ht, handleReflectQuery]

theorem handleReflect_stats_eq (input : ReflectInput)
    (existing : List ExistingArtifact) (store : List Observation)
    (hq : input.query = none)
    (he : store.filter (fun o => !o.processed) = []) :
    handleReflect input existing store =
      (ReflectResult.statsRes store.length 0 store.length (typeCounts store)
        (jsSliceNeg store 5), store) := by
  have ht : optTruthy input.query = false := by rw [hq]; rfl
  simp [handleReflect, ht, he]

theorem handleReflect_cluster_eq (input : ReflectInput)
    (existing : List ExistingArtifact) (store : List Observation)
    (hq : input.query = none)
    (hne : store.filter (fun o => !o.processed) ≠ []) :
    handleReflect input existing store =
      (ReflectResult.clusterRes
        (jsSliceNeg (store.filter (fun o => !o.processed)) input.limit)
        ((clusterObservations
            (jsSliceNeg (store.filter (fun o => !o.processed)) input.limit)).map
          (fun g => (g, findOverlappingArtifacts g existing
            (buildCorpusIndex existing)))),
       markProcessed
        ((jsSliceNeg (store.filter (fun o => !o.processed)) input.limit).map
          (fun o => o.id)) store) := by
  have ht : optTruthy input.query = false := by rw [hq]; rfl
  have he : (store.filter (fun o => !o.processed)).isEmpty = false := by
    cases h : store.filter (fun o => !o.processed) with
    | nil => exact absurd h hne
    | cons a t => rfl
  simp [handleReflect, ht, he]

theorem markProcessed_map_eq (store limited : List Observation)
    (hsub : ∀ m ∈ limited, m ∈ store)
    (hnd : (store.map (fun o => o.id)).Nodup) :
    markProcessed (limited.map (fun o => o.id)) store =
      store.map (fun o =>
        if o ∈ limited then { o with processed := true } else o) := by
  unfold markProcessed
  apply List.map_congr_left
  intro o ho
  by_cases hin : o ∈ limited
  · have hid : o.id ∈ limited.map (fun o => o.id) := List.mem_map_of_mem _ hin
    simp [hid, hin]
  · have hid : o.id ∉ limited.map (fun o => o.id) := by
      intro hmem
      rcases List.mem_map.mp hmem with ⟨m, hm, heq⟩
      have := List.inj_on_of_nodup_map hnd (hsub m hm) ho heq
      exact hin (this ▸ hm)
    simp [hid, hin]

theorem markProcessed_all_processed (ids : List String)
    (store : List Observation)
    (h : ∀ o ∈ store, o.processed = false → o.id ∈ ids) :
    ∀ o' ∈ markProcessed ids store, o'.processed = true := by
  intro o' ho'
  rcases List.mem_map.mp ho' with ⟨o, ho, rfl⟩
  cases hp : o.processed
  · have hid : o.id ∈ ids := h o ho hp
    simp [hid]
  · by_cases hid : o.id ∈ ids <;> simp [hid, hp]

/-! ## Membership of cluster groups -/

theorem mergeFirst_members (o : Observation)
    (groups g : List (String × List Observation))
    (h : mergeFirst o groups = some g) :
    ∀ e ∈ g, ∀ m ∈ e.2, (∃ e' ∈ groups, m ∈ e'.2) ∨ m = o := by
  induction groups generalizing g with
  | nil => simp [mergeFirst] at h
  | cons p rest ih =>
    rcases p with ⟨k, os⟩
    by_cases hs : simMergeB k o.tags
    · rw [mergeFirst, if_pos hs] at h
      rcases Option.some.inj h with rfl
      intro e he m hm
      rcases List.mem_cons.mp he with rfl | he
      · rcases List.mem_append.mp hm with hm | hm
        · exact Or.inl ⟨(k, os), List.mem_cons_self _ _, hm⟩
        · exact Or.inr (List.mem_singleton.mp hm)
      · exact Or.inl ⟨e, List.mem_cons_of_mem _ he, hm⟩
    · rw [mergeFirst, if_neg hs] at h
      cases hrec : mergeFirst o rest with
      | none => rw [hrec] at h; simp at h
      | some r =>
        rw [hrec] at h
        rcases Option.some.inj h with rfl
        intro e he m hm
        rcases List.mem_cons.mp he with rfl | he
        · exact Or.inl ⟨(k, os), List.mem_cons_self _ _, hm⟩
        · rcases ih r hrec e he m hm with ⟨e', he', hm'⟩ | hm'
          · exact Or.inl ⟨e', List.mem_cons_of_mem _ he', hm'⟩
          · exact Or.inr hm'

theorem mapSet_members (groups : List (String × List Observation)) (k : String)
    (v : List Observation) :
    ∀ e ∈ mapSet groups k v, ∀ m ∈ e.2,
      (∃ e' ∈ groups, m ∈ e'.2) ∨ m ∈ v := by
  intro e he m hm
  unfold mapSet at he
  by_cases hk : groups.any (fun p => p.1 = k)
  · rw [if_pos hk] at he
    rcases List.mem_map.mp he with ⟨p, hp, rfl⟩
    by_cases hpk : p.1 = k
    · rw [if_pos hpk] at hm
      exact Or.inr hm
    · rw [if_neg hpk] at hm
      exact Or.inl ⟨p, hp, hm⟩
  · rw [if_neg hk] at he
    rcases List.mem_append.mp he with he | he
    · exact Or.inl ⟨e, he, hm⟩
    · rcases List.mem_singleton.mp he with rfl
      exact Or.inr hm

theorem insertObs_members (groups : List (String × List Observation))
    (o : Observation) :
    ∀ e ∈ insertObs groups o, ∀ m ∈ e.2,
      (∃ e' ∈ groups, m ∈ e'.2) ∨ m = o := by
  intro e he m hm
  unfold insertObs at he
  cases hmf : mergeFirst o groups with
  | some g =>
    rw [hmf] at he
    exact mergeFirst_members o groups g hmf e he m hm
  | none =>
    rw [hmf] at he
    rcases mapSet_members groups (obsKey o) [o] e he m hm with h | h
    · exact Or.inl h
    · exact Or.inr (List.mem_singleton.mp h)

theorem clusterPhase1_members_aux (Q : Observation → Prop)
    (l : List Observation) (acc : List (String × List Observation))
    (hacc : ∀ e ∈ acc, ∀ m ∈ e.2, Q m) (hl : ∀ x ∈ l, Q x) :
    ∀ e ∈ l.foldl insertObs acc, ∀ m ∈ e.2, Q m := by
  induction l generalizing acc with
  | nil => simpa using hacc
  | cons x rest ih =>
    rw [List.foldl_cons]
    refine ih (insertObs acc x) ?_ (fun y hy => hl y (List.mem_cons_of_mem _ hy))
    intro e he m hm
    rcases insertObs_members acc x e he m hm with ⟨e', he', hm'⟩ | rfl
    · exact hacc e' he' m hm'
    · exact hl m (List.mem_cons_self _ _)

theorem clusterPhase1_members (l : List Observation) :
    ∀ e ∈ clusterPhase1 l, ∀ m ∈ e.2, m ∈ l := by
  exact clusterPhase1_members_aux (fun m => m ∈ l) l [] (by simp) (fun x hx => hx)

theorem buildGroup_observations (members : List Observation)
    (g : ObservationGroup) (h : buildGroup members = some g) :
    g.observations = members := by
  cases members with
  | nil => simp [buildGroup] at h
  | cons f rest =>
    rcases Option.some.inj h with rfl
    rfl

theorem clusterObservations_members (l : List Observation)
    (g : ObservationGroup) (hg : g ∈ clusterObservations l) :
    ∀ m ∈ g.observations, ∃ x ∈ l, m = { x with tags := sortTags x.tags } := by
  intro m hm
  unfold clusterObservations at hg
  by_cases he : l.isEmpty
  · rw [if_pos he] at hg
    simp at hg
  · rw [if_neg he] at hg
    rw [mem_sortBy] at hg
    rcases List.mem_filterMap.mp hg with ⟨members, hmem, hbuild⟩
    have hobs := buildGroup_observations members g hbuild
    rw [hobs] at hm
    rcases List.mem_map.mp hmem with ⟨e, he', rfl⟩
    have := clusterPhase1_members (l.map (fun o => { o with tags := sortTags o.tags }))
      e he' m hm
    rcases List.mem_map.mp this with ⟨x, hx, rfl⟩
    exact ⟨x, hx, rfl⟩

/-! ## Claim C7: query mode -/

/-- C7 (amended): a reflect call with a nonempty query string returns, without
mutating the store, exactly the observations (processed and unprocessed
alike) whose lowercased summary, tags, recommendation, context error, source
or session reference contains the lowercased query — in chronological
(store) order, keeping only the `limit` most recent matches, all of them
when `limit` is 0. -/
theorem handleReflectQuery_amended :
    (∀ (q : String) (limit : Nat) (existing : List ExistingArtifact)
        (store : List Observation), q ≠ "" →
      handleReflect ⟨some q, limit⟩ existing store =
        (ReflectResult.queryRes
          (jsSliceNeg (store.filter (matchesQuery (toLowerStr q))) limit),
         store)) ∧
    (∀ (q : String) (limit : Nat) (store : List Observation),
      (handleReflectQuery store q limit).Sublist
        (store.filter (matchesQuery (toLowerStr q)))) ∧
    (∀ (q : String) (limit : Nat) (store : List Observation),
      (handleReflectQuery store q limit).IsSuffix
        (store.filter (matchesQuery (toLowerStr q)))) ∧
    (∀ (q : String) (limit : Nat) (store : List Observation), 0 < limit →
      (handleReflectQuery store q limit).length ≤ limit) := by
  refine ⟨?_, ?_, ?_, ?_⟩
  · intro q limit existing store hq
    exact handleReflect_query_eq q limit existing store hq
  · intro q limit store
    exact jsSliceNeg_sublist _ _
  · intro q limit store
    exact jsSliceNeg_suffix _ _
  · intro q limit store h
    exact length_jsSliceNeg_le _ _ h

/-- Older stored observation matching the query. -/
def queryObsA : Observation :=
  { id := "obs_1_aaaa", ts := "2024-01-01T00:00:00Z", session := "s"
  , summary := "the deploy failed on the first attempt of the day"
  , context := none, tags := [], recommendation := ""
  , artifact_type := ArtifactType.rule, source := "manual"
  , session_ref := none, processed := true }

/-- Newer stored observation matching the query. -/
def queryObsB : Observation :=
  { id := "obs_2_bbbb", ts := "2024-01-02T00:00:00Z", session := "s"
  , summary := "the deploy failed again on the second retry today"
  , context := none, tags := [], recommendation := ""
  , artifact_type := ArtifactType.rule, source := "manual"
  , session_ref := none, processed := false }

/-- C7 counterexample: with `limit = 0` and two matching observations the
query path returns both matches (the cap does not apply) and returns them in
chronological order, oldest first — not most-recent-first. -/
theorem handleReflectQuery_cex :
    (handleReflect ⟨some "deploy", 0⟩ [] [queryObsA, queryObsB]).1 =
      ReflectResult.queryRes [queryObsA, queryObsB] ∧
    queryObsA ≠ queryObsB ∧
    ¬ (([queryObsA, queryObsB] : List Observation).length ≤ 0) ∧
    ReflectResult.queryRes [queryObsA, queryObsB] ≠
      ReflectResult.queryRes [queryObsB, queryObsA] := by
  decide

theorem handleReflectQuery_witness :
    handleReflect ⟨some "deploy", 1⟩ [] [queryObsA, queryObsB] =
      (ReflectResult.queryRes
        (jsSliceNeg ([queryObsA, queryObsB].filter
          (matchesQuery (toLowerStr "deploy"))) 1),
       [queryObsA, queryObsB]) ∧
    (handleReflectQuery [queryObsA, queryObsB] "deploy" 1).length ≤ 1 := by
  exact ⟨handleReflectQuery_amended.1 "deploy" 1 [] [queryObsA, queryObsB]
      (by decide),
    handleReflectQuery_amended.2.2.2 "deploy" 1 [queryObsA, queryObsB]
      (by decide)⟩

/-! ## Claim C10: limit 0 disables the cap -/

/-- C10: `slice(-0)` is `slice(0)`, the whole array, so a reflect call with
limit 0 consumes the whole unprocessed list in cluster mode (marking every
formerly unprocessed record processed) and returns every match in query
mode. -/
theorem reflect_limit_zero :
    (∀ (l : List Observation), jsSliceNeg l 0 = l) ∧
    (∀ (existing : List ExistingArtifact) (store : List Observation),
      store.filter (fun o => !o.processed) ≠ [] →
      (handleReflect ⟨none, 0⟩ existing store).2 =
        markProcessed
          ((store.filter (fun o => !o.processed)).map (fun o => o.id)) store ∧
      (∀ o' ∈ (handleReflect ⟨none, 0⟩ existing store).2, o'.processed = true) ∧
      ∃ annotated, (handleReflect ⟨none, 0⟩ existing store).1 =
        ReflectResult.clusterRes (store.filter (fun o => !o.processed))
          annotated) ∧
    (∀ (q : String) (existing : List ExistingArtifact)
        (store : List Observation), q ≠ "" →
      (handleReflect ⟨some q, 0⟩ existing store).1 =
        ReflectResult.queryRes (store.filter (matchesQuery (toLowerStr q)))) := by
  refine ⟨fun l => rfl, ?_, ?_⟩
  · intro existing store hne
    have hc := handleReflect_cluster_eq ⟨none, 0⟩ existing store rfl hne
    rw [jsSliceNeg_zero] at hc
    refine ⟨by rw [hc], ?_, ?_⟩
    · rw [hc]
      refine markProcessed_all_processed _ _ ?_
      intro o ho hp
      refine List.mem_map_of_mem _ ?_
      exact List.mem_filter.mpr ⟨ho, by simp [hp]⟩
    · exact ⟨_, by rw [hc]⟩
  · intro q existing store hq
    rw [handleReflect_query_eq q 0 existing store hq, jsSliceNeg_zero]

/-- An unprocessed observation used to instantiate the limit-0 behavior. -/
def limitZeroObs : Observation :=
  { id := "obs_3_cccc", ts := "2024-01-03T00:00:00Z", session := "s"
  , summary := "editing the same config file repeatedly wastes time"
  , context := none, tags := ["config"], recommendation := "batch config edits"
  , artifact_type := ArtifactType.rule, source := "manual"
  , session_ref := none, processed := false }

theorem reflect_limit_zero_witness :
    jsSliceNeg ([queryObsA, limitZeroObs] : List Observation) 0 =
      [queryObsA, limitZeroObs] ∧
    (handleReflect ⟨none, 0⟩ [] [queryObsA, limitZeroObs]).2 =
      markProcessed
        (([queryObsA, limitZeroObs].filter (fun o => !o.processed)).map
          (fun o => o.id)) [queryObsA, limitZeroObs] ∧
    (∀ o' ∈ (handleReflect ⟨none, 0⟩ [] [queryObsA, limitZeroObs]).2,
      o'.processed = true) ∧
    (handleReflect ⟨some "deploy", 0⟩ [] [queryObsA, limitZeroObs]).1 =
      ReflectResult.queryRes
        ([queryObsA, limitZeroObs].filter (matchesQuery (toLowerStr "deploy"))) := by
  have h := reflect_limit_zero.2.1 [] [queryObsA, limitZeroObs] (by decide)
  exact ⟨reflect_limit_zero.1 [queryObsA, limitZeroObs], h.1, h.2.1,
    reflect_limit_zero.2.2 "deploy" [] [queryObsA, limitZeroObs] (by decide)⟩

/-! ## Claim C3: the frame of a reflect call -/

/-- C3: with no query and no unprocessed observation, reflect returns a pure
statistics view whose unprocessed count is 0 and leaves the store untouched;
otherwise the cluster pass consumes the `slice(-limit)` most-recent
unprocessed observations (at most `limit` of them when `limit` is positive)
and the store mutation is exactly the processed flip on those records —
members of groups whose action came out create included; query-mode calls
never mutate the store. -/
theorem handleReflect_frame :
    (∀ (input : ReflectInput) (existing : List ExistingArtifact)
        (store : List Observation), input.query = none →
      store.filter (fun o => !o.processed) = [] →
      handleReflect input existing store =
        (ReflectResult.statsRes store.length 0 store.length (typeCounts store)
          (jsSliceNeg store 5), store)) ∧
    (∀ (input : ReflectInput) (existing : List ExistingArtifact)
        (store : List Observation), input.query = none →
      store.filter (fun o => !o.processed) ≠ [] →
      (store.map (fun o => o.id)).Nodup →
      ((handleReflect input existing store).2 =
        store.map (fun o =>
          if o ∈ jsSliceNeg (store.filter (fun o' => !o'.processed)) input.limit
          then { o with processed := true } else o)) ∧
      (0 < input.limit →
        (jsSliceNeg (store.filter (fun o => !o.processed)) input.limit).length ≤
          input.limit) ∧
      (jsSliceNeg (store.filter (fun o => !o.processed)) input.limit).IsSuffix
        (store.filter (fun o => !o.processed)) ∧
      ((handleReflect input existing store).1 =
        ReflectResult.clusterRes
          (jsSliceNeg (store.filter (fun o => !o.processed)) input.limit)
          ((clusterObservations
              (jsSliceNeg (store.filter (fun o => !o.processed)) input.limit)).map
            (fun g => (g, findOverlappingArtifacts g existing
              (buildCorpusIndex existing))))) ∧
      (∀ ga ∈ (clusterObservations
            (jsSliceNeg (store.filter (fun o => !o.processed)) input.limit)).map
          (fun g => (g, findOverlappingArtifacts g existing
            (buildCorpusIndex existing))),
        ∀ m ∈ ga.1.observations, ∀ o' ∈ (handleReflect input existing store).2,
          o'.id = m.id → o'.processed = true)) ∧
    (∀ (q : String) (limit : Nat) (existing : List ExistingArtifact)
        (store : List Observation), q ≠ "" →
      (handleReflect ⟨some q, limit⟩ existing store).2 = store) := by
  refine ⟨?_, ?_, ?_⟩
  · intro input existing store hq he
    exact handleReflect_stats_eq input existing store hq he
  · intro input existing store hq hne hnd
    have hc := handleReflect_cluster_eq input existing store hq hne
    have hsub : ∀ m ∈ jsSliceNeg (store.filter (fun o => !o.processed))
        input.limit, m ∈ store := by
      intro m hm
      exact List.mem_of_mem_filter
        (jsSliceNeg_subset (store.filter (fun o => !o.processed)) input.limit m hm)
    have hmark := markProcessed_map_eq store
      (jsSliceNeg (store.filter (fun o => !o.processed)) input.limit) hsub hnd
    refine ⟨?_, fun h => length_jsSliceNeg_le _ _ h, jsSliceNeg_suffix _ _,
      by rw [hc], ?_⟩
    · rw [hc]
      exact hmark
    · intro ga hga m hm o' ho' hid
      rcases List.mem_map.mp hga with ⟨g, hg, rfl⟩
      rcases clusterObservations_members _ g hg m hm with ⟨x, hx, rfl⟩
      rw [hc] at ho'
      rw [hmark] at ho'
      rcases List.mem_map.mp ho' with ⟨o, ho, rfl⟩
      have hxid : x.id = o.id := by
        by_cases hin : o ∈ jsSliceNeg (store.filter (fun o' => !o'.processed))
            input.limit
        · rw [if_pos hin] at hid
          exact hid.symm
        · rw [if_neg hin] at hid
          exact hid.symm
      have hox : o = x :=
        List.inj_on_of_nodup_map hnd ho (hsub x hx) hxid.symm
      have hin : o ∈ jsSliceNeg (store.filter (fun o' => !o'.processed))
          input.limit := hox ▸ hx
      rw [if_pos hin]
  · intro q limit existing store hq
    rw [handleReflect_query_eq q limit existing store hq]

theorem handleReflect_frame_witness :
    handleReflect ⟨none, 50⟩ [] [queryObsA] =
      (ReflectResult.statsRes 1 0 1 (typeCounts [queryObsA])
        (jsSliceNeg [queryObsA] 5), [queryObsA]) ∧
    (handleReflect ⟨none, 50⟩ [] [queryObsA, limitZeroObs]).2 =
      [queryObsA, limitZeroObs].map (fun o =>
        if o ∈ jsSliceNeg
            ([queryObsA, limitZeroObs].filter (fun o' => !o'.processed)) 50
        then { o with processed := true } else o) ∧
    (handleReflect ⟨some "deploy", 3⟩ [] [queryObsA, limitZeroObs]).2 =
      [queryObsA, limitZeroObs] := by
  refine ⟨?_, ?_, ?_⟩
  · exact handleReflect_frame.1 ⟨none, 50⟩ [] [queryObsA] rfl (by decide)
  · exact (handleReflect_frame.2.1 ⟨none, 50⟩ [] [queryObsA, limitZeroObs] rfl
      (by decide) (by decide)).1
  · exact handleReflect_frame.2.2 "deploy" 3 [] [queryObsA, limitZeroObs]
      (by decide)

/-! ## Claim C9: lifecycle invariants of the store -/

/-- One engine operation with its nondeterministic inputs fixed. -/
inductive EngineOp where
  | observeOp (sha : String → String) (newId newTs newSession : String)
      (input : ObserveInput)
  | reflectOp (input : ReflectInput) (existing : List ExistingArtifact)

/-- Apply one operation to the store, keeping only the store effect. -/
def applyOp (store : List Observation) : EngineOp → List Observation
  | EngineOp.observeOp sha nid nts nsess input =>
      (handleObserve sha nid nts nsess input store).2
  | EngineOp.reflectOp input existing =>
      (handleReflect input existing store).2

/-- How a store may change across engine operations: no record is deleted or
reordered, and an existing record either stays identical or has exactly its
`processed` flag set to `true`. -/
def StoreEvolves (s s' : List Observation) : Prop :=
  s.length ≤ s'.length ∧
  ∀ i, i < s.length →
    s'.get? i = s.get? i ∨
    ∃ o, s.get? i = some o ∧ s'.get? i = some { o with processed := true }

theorem storeEvolves_refl (s : List Observation) : StoreEvolves s s :=
  ⟨le_refl _, fun _ _ => Or.inl rfl⟩

theorem storeEvolves_append (s t : List Observation) :
    StoreEvolves s (s ++ t) := by
  refine ⟨by simp, fun i hi => Or.inl ?_⟩
  exact List.get?_append hi

theorem storeEvolves_markProcessed (ids : List String)
    (s : List Observation) : StoreEvolves s (markProcessed ids s) := by
  refine ⟨by simp [markProcessed], ?_⟩
  intro i hi
  cases hg : s.get? i with
  | none =>
    exact absurd (List.get?_eq_none.mp hg) (Nat.not_le_of_lt hi)
  | some o =>
    have hmap : (markProcessed ids s).get? i =
        (s.get? i).map (fun o =>
          if o.id ∈ ids then { o with processed := true } else o) := by
      unfold markProcessed
      rw [List.get?_map]
    rw [hg] at hmap
    by_cases hid : o.id ∈ ids
    · refine Or.inr ⟨o, rfl, ?_⟩
      rw [hmap]
      simp [hid]
    · refine Or.inl ?_
      rw [hmap]
      simp [hid]

theorem storeEvolves_trans (s s' s'' : List Observation)
    (h1 : StoreEvolves s s') (h2 : StoreEvolves s' s'') :
    StoreEvolves s s'' := by
  refine ⟨le_trans h1.1 h2.1, ?_⟩
  intro i hi
  have hi' : i < s'.length := Nat.lt_of_lt_of_le hi h1.1
  rcases h1.2 i hi with he | ⟨o, ho, he⟩
  · rcases h2.2 i hi' with he2 | ⟨o', ho', he2⟩
    · exact Or.inl (he2.trans he)
    · right
      refine ⟨o', by rw [← he, ho'], he2⟩
  · rcases h2.2 i hi' with he2 | ⟨o', ho', he2⟩
    · right
      exact ⟨o, ho, by rw [he2, he]⟩
    · right
      refine ⟨o, ho, ?_⟩
      rw [he] at ho'
      rcases Option.some.inj ho' with rfl
      rw [he2]

theorem handleObserve_snd_cases (sha : String → String)
    (nid nts nsess : String) (input : ObserveInput)
    (store : List Observation) :
    (handleObserve sha nid nts nsess input store).2 = store ∨
    ∃ obs, (handleObserve sha nid nts nsess input store).2 = store ++ [obs] := by
  unfold handleObserve
  by_cases h1 : (optTruthy (input.context.bind fun c => c.before) &&
      !optTruthy (input.context.bind fun c => c.after)) = true
  · rw [if_pos h1]
    exact Or.inl rfl
  · rw [if_neg h1]
    by_cases h2 : (recentHashes sha 100 store).contains
        (hashSummary sha input.summary) = true
    · rw [if_pos h2]
      exact Or.inl rfl
    · rw [if_neg h2]
      exact Or.inr ⟨_, rfl⟩

theorem handleReflect_snd_cases (input : ReflectInput)
    (existing : List ExistingArtifact) (store : List Observation) :
    (handleReflect input existing store).2 = store ∨
    ∃ ids, (handleReflect input existing store).2 = markProcessed ids store := by
  unfold handleReflect
  by_cases h1 : optTruthy input.query = true
  · rw [if_pos h1]
    exact Or.inl rfl
  · rw [if_neg h1]
    by_cases h2 : (store.filter (fun o => !o.processed)).isEmpty = true
    · rw [if_pos h2]
      exact Or.inl rfl
    · rw [if_neg h2]
      exact Or.inr ⟨_, rfl⟩

theorem storeEvolves_applyOp (store : List Observation) (op : EngineOp) :
    StoreEvolves store (applyOp store op) := by
  cases op with
  | observeOp sha nid nts nsess input =>
    show StoreEvolves store (handleObserve sha nid nts nsess input store).2
    rcases handleObserve_snd_cases sha nid nts nsess input store with h | ⟨obs, h⟩
    · rw [h]
      exact storeEvolves_refl store
    · rw [h]
      exact storeEvolves_append store [obs]
  | reflectOp input existing =>
    show StoreEvolves store (handleReflect input existing store).2
    rcases handleReflect_snd_cases input existing store with h | ⟨ids, h⟩
    · rw [h]
      exact storeEvolves_refl store
    · rw [h]
      exact storeEvolves_markProcessed ids store

theorem storeEvolves_foldl (ops : List EngineOp) (s0 : List Observation) :
    StoreEvolves s0 (ops.foldl applyOp s0) := by
  induction ops generalizing s0 with
  | nil => exact storeEvolves_refl s0
  | cons op rest ih =>
    rw [List.foldl_cons]
    exact storeEvolves_trans _ _ _ (storeEvolves_applyOp s0 op)
      (ih (applyOp s0 op))

/-- C9: across any sequence of observe and reflect operations, the store only
grows at the end; a record already in the store at position `i` is, after the
sequence, either unchanged or changed exactly by setting `processed := true`;
in particular a processed record never becomes unprocessed and no record is
ever deleted. -/
theorem engine_store_invariant :
    (∀ (ops : List EngineOp) (s0 : List Observation),
      StoreEvolves s0 (ops.foldl applyOp s0)) ∧
    (∀ (ops : List EngineOp) (s0 : List Observation) (i : Nat)
        (o o' : Observation),
      s0.get? i = some o → (ops.foldl applyOp s0).get? i = some o' →
      o' = o ∨ o' = { o with processed := true }) ∧
    (∀ (ops : List EngineOp) (s0 : List Observation) (i : Nat)
        (o o' : Observation),
      s0.get? i = some o → (ops.foldl applyOp s0).get? i = some o' →
      o.processed = true → o'.processed = true) := by
  have key : ∀ (ops : List EngineOp) (s0 : List Observation) (i : Nat)
      (o o' : Observation),
      s0.get? i = some o → (ops.foldl applyOp s0).get? i = some o' →
      o' = o ∨ o' = { o with processed := true } := by
    intro ops s0 i o o' ho ho'
    have hev := storeEvolves_foldl ops s0
    have hi : i < s0.length := by
      by_contra hge
      rw [List.get?_eq_none.mpr (Nat.le_of_not_lt hge)] at ho
      exact Option.noConfusion ho
    rcases hev.2 i hi with he | ⟨o2, ho2, he⟩
    · rw [he, ho] at ho'
      exact Or.inl (Option.some.inj ho').symm
    · rw [ho] at ho2
      rcases Option.some.inj ho2 with rfl
      rw [he] at ho'
      exact Or.inr (Option.some.inj ho').symm
  refine ⟨fun ops s0 => storeEvolves_foldl ops s0, key, ?_⟩
  intro ops s0 i o o' ho ho' hp
  rcases key ops s0 i o o' ho ho' with rfl | rfl
  · exact hp
  · rfl

theorem engine_store_invariant_witness :
    StoreEvolves [queryObsA]
      (([EngineOp.reflectOp ⟨none, 50⟩ []] : List EngineOp).foldl applyOp
        [queryObsA]) ∧
    ∀ o', ([EngineOp.reflectOp ⟨none, 50⟩ []].foldl applyOp
        [queryObsA]).get? 0 = some o' →
      o'.processed = true := by
  constructor
  · exact engine_store_invariant.1 [EngineOp.reflectOp ⟨none, 50⟩ []] [queryObsA]
  · intro o' ho'
    exact engine_store_invariant.2.2 [EngineOp.reflectOp ⟨none, 50⟩ []]
      [queryObsA] 0 queryObsA o' rfl ho' rfl

/-! ## Document-frequency lemmas for the corpus index -/

theorem lookupDF_cons (p : String × Nat) (t : List (String × Nat)) (w : String) :
    lookupDF (p :: t) w = if p.1 = w then some p.2 else lookupDF t w := by
  unfold lookupDF
  by_cases hp : p.1 = w
  · rw [List.find?_cons_of_pos _ (by simpa using hp), if_pos hp]
    rfl
  · rw [List.find?_cons_of_neg _ (by simpa using hp), if_neg hp]

theorem lookupDF_mapBump (m : List (String × Nat)) (u w : String) :
    lookupDF (m.map (fun p => if p.1 = u then (p.1, p.2 + 1) else p)) w =
      (lookupDF m w).map (fun v => if w = u then v + 1 else v) := by
  induction m with
  | nil => rfl
  | cons p t ih =>
    simp only [List.map_cons]
    by_cases hp : p.1 = w
    · by_cases hpu : p.1 = u
      · have hwu : w = u := hp ▸ hpu
        rw [if_pos hpu, lookupDF_cons, lookupDF_cons, if_pos hp, if_pos hp]
        simp [hwu]
      · have hwu : ¬ w = u := fun h => hpu (hp.symm ▸ h)
        rw [if_neg hpu, lookupDF_cons, lookupDF_cons, if_pos hp, if_pos hp]
        simp [hwu]
    · by_cases hpu : p.1 = u
      · rw [if_pos hpu, lookupDF_cons, lookupDF_cons, if_neg hp, if_neg hp, ih]
      · rw [if_neg hpu, lookupDF_cons, lookupDF_cons, if_neg hp, if_neg hp, ih]

theorem lookupDF_appendOne (m : List (String × Nat)) (u : String) (n : Nat)
    (w : String) :
    lookupDF (m ++ [(u, n)]) w =
      match lookupDF m w with
      | some v => some v
      | none => if u = w then some n else none := by
  induction m with
  | nil =>
    rw [List.nil_append, lookupDF_cons]
    rfl
  | cons p t ih =>
    rw [List.cons_append, lookupDF_cons, lookupDF_cons]
    by_cases hp : p.1 = w
    · rw [if_pos hp, if_pos hp]
    · rw [if_neg hp, if_neg hp, ih]

theorem bumpWord_lookup_mono (m : List (String × Nat)) (u w : String) :
    (lookupDF m w).getD 0 ≤ (lookupDF (bumpWord m u) w).getD 0 := by
  unfold bumpWord
  by_cases hany : (m.any (fun p => decide (p.1 = u))) = true
  · rw [if_pos hany, lookupDF_mapBump]
    cases lookupDF m w with
    | none => simp
    | some v =>
      by_cases hwu : w = u <;> simp [hwu]
  · rw [if_neg hany, lookupDF_appendOne]
    cases lookupDF m w with
    | none => simp
    | some v => simp

theorem bumpWord_lookup_self (m : List (String × Nat)) (w : String) :
    1 ≤ (lookupDF (bumpWord m w) w).getD 0 := by
  unfold bumpWord
  by_cases hany : (m.any (fun p => decide (p.1 = w))) = true
  · rw [if_pos hany, lookupDF_mapBump]
    have hsome : (m.find? (fun p => decide (p.1 = w))).isSome := by
      rw [List.find?_isSome]
      rcases List.any_eq_true.mp hany with ⟨p, hp, hpe⟩
      exact ⟨p, hp, hpe⟩
    rcases Option.isSome_iff_exists.mp hsome with ⟨p, hp⟩
    have : lookupDF m w = some p.2 := by
      unfold lookupDF
      rw [hp]
      rfl
    rw [this]
    simp
  · rw [if_neg hany, lookupDF_appendOne]
    have hnone : lookupDF m w = none := by
      unfold lookupDF
      rw [List.find?_eq_none.mpr]
      · rfl
      · intro p hp
        intro hc
        exact hany (List.any_eq_true.mpr ⟨p, hp, hc⟩)
    rw [hnone]
    simp

theorem foldl_bumpWord_mono (ws : List String) (m : List (String × Nat))
    (w : String) :
    (lookupDF m w).getD 0 ≤ (lookupDF (ws.foldl bumpWord m) w).getD 0 := by
  induction ws generalizing m with
  | nil => exact le_refl _
  | cons u rest ih =>
    rw [List.foldl_cons]
    exact le_trans (bumpWord_lookup_mono m u w) (ih (bumpWord m u))

theorem foldl_bumpWord_of_mem (ws : List String) (m : List (String × Nat))
    (w : String) (hw : w ∈ ws) :
    1 ≤ (lookupDF (ws.foldl bumpWord m) w).getD 0 := by
  induction ws generalizing m with
  | nil => simp at hw
  | cons u rest ih =>
    rw [List.foldl_cons]
    rcases List.mem_cons.mp hw with rfl | hw
    · exact le_trans (bumpWord_lookup_self m w) (foldl_bumpWord_mono rest _ w)
    · exact ih (bumpWord m u) hw

theorem foldl_corpus_mono (arts : List ExistingArtifact)
    (m : List (String × Nat)) (w : String) :
    (lookupDF m w).getD 0 ≤
      (lookupDF (arts.foldl
        (fun m a => (jsSetList a.keywords).foldl bumpWord m) m) w).getD 0 := by
  induction arts generalizing m with
  | nil => exact le_refl _
  | cons a rest ih =>
    rw [List.foldl_cons]
    exact le_trans (foldl_bumpWord_mono (jsSetList a.keywords) m w) (ih _)

theorem one_le_corpusFold_of_mem (arts : List ExistingArtifact)
    (m : List (String × Nat)) (w : String)
    (h : ∃ a ∈ arts, w ∈ a.keywords) :
    1 ≤ (lookupDF (arts.foldl
      (fun m a => (jsSetList a.keywords).foldl bumpWord m) m) w).getD 0 := by
  induction arts generalizing m with
  | nil =>
    rcases h with ⟨a, ha, _⟩
    simp at ha
  | cons b rest ih =>
    rw [List.foldl_cons]
    rcases h with ⟨a, ha, hw⟩
    rcases List.mem_cons.mp ha with rfl | ha
    · exact le_trans
        (foldl_bumpWord_of_mem _ m w ((mem_jsSetList _ _).mpr hw))
        (foldl_corpus_mono rest _ w)
    · exact ih _ ⟨a, ha, hw⟩

theorem one_le_docFreq_of_keyword (artifacts : List ExistingArtifact)
    (a : ExistingArtifact) (ha : a ∈ artifacts) (w : String)
    (hw : w ∈ a.keywords) :
    1 ≤ (lookupDF (buildCorpusIndex artifacts).docFreq w).getD 0 :=
  one_le_corpusFold_of_mem artifacts [] w ⟨a, ha, hw⟩

/-! ## Claim C2: IDF overlap scoring -/

theorem foldl_if_add (l : List String) (p : String → Bool) (f : String → ℚ)
    (init : ℚ) :
    l.foldl (fun s w => if p w then s + f w else s) init =
      init + ((l.filter p).map f).sum := by
  induction l generalizing init with
  | nil => simp
  | cons a t ih =>
    rw [List.foldl_cons]
    by_cases hp : p a
    · rw [if_pos hp, ih, List.filter_cons_of_pos hp, List.map_cons,
        List.sum_cons]
      ring
    · rw [if_neg hp, ih, List.filter_cons_of_neg hp]

theorem getD_one_eq_getD_zero (o : Option Nat) (h : 1 ≤ o.getD 0) :
    o.getD 1 = o.getD 0 := by
  cases o with
  | none => simp at h
  | some v => rfl

/-- The claim's per-artifact score: the sum of `1 / documentFrequency(w)`
over every word of the group's word set that is non-generic (document
frequency at most the threshold) and occurs in the artifact's non-generic
keyword set, plus a flat 5.0 bonus when the artifact's name contains some
lowercased group tag or some lowercased group tag contains the name. -/
def specScore (group : ObservationGroup) (index : CorpusIndex)
    (artifact : ExistingArtifact) : ℚ :=
  (((groupWords group).filter (fun w =>
      isRelevantB index w &&
      (jsSetList (artifact.keywords.filter (isRelevantB index))).contains w)).map
    (fun w => 1 / (((lookupDF index.docFreq w).getD 0 : Nat) : ℚ))).sum +
  (if group.tags.any (fun t =>
      includesStr artifact.name (toLowerStr t) ||
      includesStr (toLowerStr t) artifact.name) then 5 else 0)

/-- The claim's result pipeline: exactly the artifacts with spec score at
least 3.0, stably sorted by descending score, truncated to at most 2. -/
def specFindOverlapping (group : ObservationGroup)
    (existing : List ExistingArtifact) (index : CorpusIndex) :
    List ExistingArtifact :=
  ((sortBy (fun a b => decide (b.2 ≤ a.2))
      ((existing.map (fun a => (a, specScore group index a))).filter
        (fun s => decide ((3 : ℚ) ≤ s.2)))).take 2).map (fun s => s.1)

theorem scoreArtifact_eq_specScore (g : ObservationGroup) (index : CorpusIndex)
    (a : ExistingArtifact)
    (hdf : ∀ w ∈ a.keywords, 1 ≤ (lookupDF index.docFreq w).getD 0) :
    scoreArtifact g index a = specScore g index a := by
  unfold scoreArtifact specScore
  dsimp only
  rw [foldl_if_add]
  rw [zero_add]
  have hmap : (((groupWords g).filter (fun w =>
      isRelevantB index w &&
      (jsSetList (a.keywords.filter (isRelevantB index))).contains w)).map
        (fun w => 1 / (((lookupDF index.docFreq w).getD 1 : Nat) : ℚ))) =
      (((groupWords g).filter (fun w =>
      isRelevantB index w &&
      (jsSetList (a.keywords.filter (isRelevantB index))).contains w)).map
        (fun w => 1 / (((lookupDF index.docFreq w).getD 0 : Nat) : ℚ))) := by
    apply List.map_congr_left
    intro w hw
    have hc := (List.mem_filter.mp hw).2
    have hker : w ∈ a.keywords := by
      have hc' : isRelevantB index w = true ∧
          (jsSetList (a.keywords.filter (isRelevantB index))).contains w
            = true := by
        simpa using hc
      have h3 := (list_contains_iff _ _).mp hc'.2
      have h4 := (mem_jsSetList _ _).mp h3
      exact List.mem_of_mem_filter h4
    rw [getD_one_eq_getD_zero _ (hdf w hker)]
  rw [hmap]
  by_cases hn : (g.tags.any (fun t =>
      includesStr a.name (toLowerStr t) ||
      includesStr (toLowerStr t) a.name)) = true
  · rw [if_pos hn, if_pos hn]
  · rw [if_neg hn, if_neg hn]
    ring

/-- C2 (amended): for every group and artifact list with its corpus index,
the per-artifact score is the claim's sum-plus-bonus formula with the bonus
keyed on lowercased tags; the result is exactly the artifacts scoring at
least 3.0, stably sorted by descending score and truncated to at most 2; and
an empty result gives the group the create action. -/
theorem findOverlappingArtifacts_spec_amended (g : ObservationGroup)
    (artifacts : List ExistingArtifact) :
    (∀ a ∈ artifacts, scoreArtifact g (buildCorpusIndex artifacts) a =
      specScore g (buildCorpusIndex artifacts) a) ∧
    findOverlappingArtifacts g artifacts (buildCorpusIndex artifacts) =
      specFindOverlapping g artifacts (buildCorpusIndex artifacts) ∧
    (∀ a ∈ findOverlappingArtifacts g artifacts (buildCorpusIndex artifacts),
      (3 : ℚ) ≤ scoreArtifact g (buildCorpusIndex artifacts) a) ∧
    (findOverlappingArtifacts g artifacts (buildCorpusIndex artifacts)).length
      ≤ 2 ∧
    (findOverlappingArtifacts g artifacts
        (buildCorpusIndex artifacts)).Pairwise
      (fun a b => scoreArtifact g (buildCorpusIndex artifacts) b ≤
        scoreArtifact g (buildCorpusIndex artifacts) a) ∧
    (findOverlappingArtifacts g artifacts (buildCorpusIndex artifacts) = [] →
      actionOf (findOverlappingArtifacts g artifacts
        (buildCorpusIndex artifacts)) = "create") := by
  have hscore : ∀ a ∈ artifacts,
      scoreArtifact g (buildCorpusIndex artifacts) a =
        specScore g (buildCorpusIndex artifacts) a := by
    intro a ha
    exact scoreArtifact_eq_specScore g (buildCorpusIndex artifacts) a
      (fun w hw => one_le_docFreq_of_keyword artifacts a ha w hw)
  have hmapeq : artifacts.map
      (fun a => (a, scoreArtifact g (buildCorpusIndex artifacts) a)) =
      artifacts.map
      (fun a => (a, specScore g (buildCorpusIndex artifacts) a)) := by
    apply List.map_congr_left
    intro a ha
    rw [hscore a ha]
  have hmempair : ∀ p ∈ artifacts.map
      (fun a => (a, scoreArtifact g (buildCorpusIndex artifacts) a)),
      p.2 = scoreArtifact g (buildCorpusIndex artifacts) p.1 := by
    intro p hp
    rcases List.mem_map.mp hp with ⟨a, _, rfl⟩
    rfl
  refine ⟨hscore, ?_, ?_, ?_, ?_, ?_⟩
  · unfold findOverlappingArtifacts specFindOverlapping
    rw [hmapeq]
  · intro a ha
    unfold findOverlappingArtifacts at ha
    rcases List.mem_map.mp ha with ⟨p, hp, rfl⟩
    have hp2 := List.mem_of_mem_take hp
    rw [mem_sortBy] at hp2
    have hp3 := List.mem_filter.mp hp2
    have hval := hmempair p hp3.1
    have hge : ((3 : ℚ) ≤ p.2) := of_decide_eq_true hp3.2
    rw [hval] at hge
    exact hge
  · unfold findOverlappingArtifacts
    rw [List.length_map]
    exact List.length_take_le 2 _
  · unfold findOverlappingArtifacts
    rw [List.pairwise_map]
    have htot : ∀ p q : ExistingArtifact × ℚ,
        decide (q.2 ≤ p.2) = true ∨ decide (p.2 ≤ q.2) = true := by
      intro p q
      rcases le_total q.2 p.2 with h | h
      · exact Or.inl (decide_eq_true h)
      · exact Or.inr (decide_eq_true h)
    have htr : ∀ p q r : ExistingArtifact × ℚ,
        decide (q.2 ≤ p.2) = true → decide (r.2 ≤ q.2) = true →
        decide (r.2 ≤ p.2) = true := by
      intro p q r h1 h2
      exact decide_eq_true (le_trans (of_decide_eq_true h2)
        (of_decide_eq_true h1))
    have hsorted := pairwise_sortBy (fun a b : ExistingArtifact × ℚ =>
        decide (b.2 ≤ a.2)) htot htr
      ((artifacts.map
        (fun a => (a, scoreArtifact g (buildCorpusIndex artifacts) a))).filter
        (fun s => decide ((3 : ℚ) ≤ s.2)))
    have htake := List.Pairwise.sublist (List.take_sublist 2 _) hsorted
    refine List.Pairwise.imp_of_mem ?_ htake
    intro p q hp hq hrel
    have hmem : ∀ r : ExistingArtifact × ℚ,
        r ∈ (sortBy (fun a b : ExistingArtifact × ℚ => decide (b.2 ≤ a.2))
          ((artifacts.map
            (fun a => (a, scoreArtifact g (buildCorpusIndex artifacts) a))).filter
            (fun s => decide ((3 : ℚ) ≤ s.2)))).take 2 →
        r.2 = scoreArtifact g (buildCorpusIndex artifacts) r.1 := by
      intro r hr
      have hr2 := List.mem_of_mem_take hr
      rw [mem_sortBy] at hr2
      exact hmempair r (List.mem_filter.mp hr2).1
    have hp' := hmem p hp
    have hq' := hmem q hq
    have hle : q.2 ≤ p.2 := of_decide_eq_true hrel
    rw [hp', hq'] at hle
    exact hle
  · intro h
    rw [h]
    rfl

/-- The name-match condition exactly as the claim words it: some group tag is
a substring of the artifact's name or vice versa, with no lowercasing. -/
def claimNameMatch (group : ObservationGroup) (artifact : ExistingArtifact) :
    Bool :=
  group.tags.any (fun t =>
    includesStr artifact.name t || includesStr t artifact.name)

/-- The claim's literal per-artifact score: word sum plus a 5.0 bonus keyed
on the raw (not lowercased) tags. -/
def claimScoreLiteral (group : ObservationGroup) (index : CorpusIndex)
    (artifact : ExistingArtifact) : ℚ :=
  (((groupWords group).filter (fun w =>
      isRelevantB index w &&
      (jsSetList (artifact.keywords.filter (isRelevantB index))).contains w)).map
    (fun w => 1 / (((lookupDF index.docFreq w).getD 0 : Nat) : ℚ))).sum +
  (if claimNameMatch group artifact then 5 else 0)

/-- Member observation of the counterexample group; every summary token is
at most 2 characters long, so the group's word set is just the tag. -/
def overlapObs : Observation :=
  { id := "obs_4_dddd", ts := "2024-01-04T00:00:00Z", session := "s"
  , summary := "aa bb cc dd ee ff gg hh ii jj"
  , context := none, tags := ["Docker"], recommendation := ""
  , artifact_type := ArtifactType.rule, source := "manual"
  , session_ref := none, processed := false }

/-- Existing artifact whose lowercase name matches the capitalized tag. -/
def aDocker : ExistingArtifact :=
  { type := ArtifactFileKind.rule, name := "docker"
  , path := "/home/u/.claude/rules/docker.md", keywords := [] }

/-- Group carrying the capitalized tag Docker. -/
def gDocker : ObservationGroup :=
  { tags := ["Docker"], observations := [overlapObs]
  , artifact_type := ArtifactType.rule, suggested_name := "docker" }

/-- C2 counterexample: the scorer returns the artifact (the code lowercases
the tag before the substring test, so Docker matches the name docker and
earns the 5.0 bonus), yet under the claim's literal formula — some group tag
a substring of the name or vice versa, no lowercasing — the artifact scores
0 and should not have been returned. -/
theorem findOverlappingArtifacts_nameMatch_cex :
    findOverlappingArtifacts gDocker [aDocker] (buildCorpusIndex [aDocker]) =
      [aDocker] ∧
    claimNameMatch gDocker aDocker = false ∧
    claimScoreLiteral gDocker (buildCorpusIndex [aDocker]) aDocker = 0 ∧
    ¬ ((3 : ℚ) ≤ claimScoreLiteral gDocker (buildCorpusIndex [aDocker])
      aDocker) := by
  have hw : groupWords gDocker = ["docker"] := by decide
  have hcont : (jsSetList (aDocker.keywords.filter
      (isRelevantB (buildCorpusIndex [aDocker])))).contains "docker" = false :=
    rfl
  have hnm : (gDocker.tags.any (fun t =>
      includesStr aDocker.name (toLowerStr t) ||
      includesStr (toLowerStr t) aDocker.name)) = true := by decide
  have hsc : scoreArtifact gDocker (buildCorpusIndex [aDocker]) aDocker = 5 := by
    unfold scoreArtifact
    dsimp only
    rw [foldl_if_add, hw]
    simp only [List.filter_cons, hcont, Bool.and_false, Bool.false_eq_true,
      if_false, List.filter_nil, List.map_nil, List.sum_nil, add_zero, hnm,
      if_true]
    norm_num
  have hlit : claimScoreLiteral gDocker (buildCorpusIndex [aDocker]) aDocker
      = 0 := by
    unfold claimScoreLiteral
    have hcm : claimNameMatch gDocker aDocker = false := by decide
    rw [hw, hcm]
    simp only [List.filter_cons, hcont, Bool.and_false, Bool.false_eq_true,
      if_false, List.filter_nil, List.map_nil, List.sum_nil,
      Bool.false_eq_true, add_zero]
  refine ⟨?_, by decide, hlit, ?_⟩
  · unfold findOverlappingArtifacts
    dsimp only
    rw [List.map_cons, List.map_nil, hsc]
    have h35 : (decide ((3 : ℚ) ≤ ((aDocker, (5 : ℚ)) : ExistingArtifact × ℚ).2))
        = true := by decide
    rw [List.filter_cons, h35]
    simp [sortBy, insertBy]
  · rw [hlit]
    norm_num

theorem findOverlappingArtifacts_spec_witness :
    scoreArtifact gDocker (buildCorpusIndex [aDocker]) aDocker =
      specScore gDocker (buildCorpusIndex [aDocker]) aDocker ∧
    findOverlappingArtifacts gDocker [aDocker] (buildCorpusIndex [aDocker]) =
      specFindOverlapping gDocker [aDocker] (buildCorpusIndex [aDocker]) ∧
    (findOverlappingArtifacts gDocker [aDocker]
      (buildCorpusIndex [aDocker])).length ≤ 2 := by
  have h := findOverlappingArtifacts_spec_amended gDocker [aDocker]
  exact ⟨h.1 aDocker (by simp), h.2.1, h.2.2.2.1⟩

/-! ## Claim C6: group post-processing -/

/-- Running maximum of `c` over a list, seeded with `k`. -/
def maxCount {α : Type} (c : α → Nat) (k : Nat) (l : List α) : Nat :=
  l.foldl (fun n u => Nat.max n (c u)) k

theorem maxCount_cons {α : Type} (c : α → Nat) (k : Nat) (u : α) (l : List α) :
    maxCount c k (u :: l) = maxCount c (Nat.max k (c u)) l := rfl

theorem le_maxCount {α : Type} (c : α → Nat) (k : Nat) (l : List α) :
    k ≤ maxCount c k l := by
  induction l generalizing k with
  | nil => exact le_refl _
  | cons u t ih => exact le_trans (Nat.le_max_left _ _) (ih _)

theorem maxCount_le_of_mem {α : Type} (c : α → Nat) (l : List α) (v : α)
    (hv : v ∈ l) (k : Nat) :
    c v ≤ maxCount c k l := by
  induction l generalizing k with
  | nil => simp at hv
  | cons u t ih =>
    rw [maxCount_cons]
    rcases List.mem_cons.mp hv with rfl | hv'
    · exact le_trans (Nat.le_max_right _ _) (le_maxCount _ _ _)
    · exact ih hv' _

theorem maxCount_attained {α : Type} (c : α → Nat) (k : Nat) (l : List α) :
    maxCount c k l = k ∨ ∃ v ∈ l, maxCount c k l = c v := by
  induction l generalizing k with
  | nil => exact Or.inl rfl
  | cons u t ih =>
    rw [maxCount_cons]
    rcases ih (Nat.max k (c u)) with h | ⟨v, hv, hl⟩
    · rcases Nat.le_total k (c u) with hm | hm
      · refine Or.inr ⟨u, List.mem_cons_self _ _, ?_⟩
        rw [h]
        exact Nat.max_eq_right hm
      · refine Or.inl ?_
        rw [h]
        exact Nat.max_eq_left hm
    · exact Or.inr ⟨v, List.mem_cons_of_mem _ hv, hl⟩

theorem pick_aux {α : Type} (c : α → Nat) (order : List α) (d : α) (m : Nat) :
    order.foldl (fun acc u => if acc.2 < c u then (u, c u) else acc) (d, m) =
      match order.find? (fun u => decide (m < c u) &&
          decide (maxCount c m order = c u)) with
      | some u => (u, c u)
      | none => (d, m) := by
  induction order generalizing d m with
  | nil => rfl
  | cons u rest ih =>
    rw [List.foldl_cons]
    by_cases hcu : m < c u
    · rw [if_pos hcu]
      have hmax : Nat.max m (c u) = c u := Nat.max_eq_right (le_of_lt hcu)
      by_cases hM : maxCount c m (u :: rest) = c u
      · have hfind : (u :: rest).find? (fun v => decide (m < c v) &&
            decide (maxCount c m (u :: rest) = c v)) = some u := by
          apply List.find?_cons_of_pos
          simp [hcu, hM]
        rw [hfind, ih]
        have hM' : maxCount c (c u) rest = c u := by
          rw [maxCount_cons, hmax] at hM
          exact hM
        have hnone : rest.find? (fun v => decide (c u < c v) &&
            decide (maxCount c (c u) rest = c v)) = none := by
          rw [List.find?_eq_none]
          intro v hv hc
          have hc' : c u < c v ∧ maxCount c (c u) rest = c v := by
            simpa using hc
          have h2 : c v ≤ maxCount c (c u) rest := maxCount_le_of_mem c rest v hv _
          rw [hM'] at h2
          exact absurd (lt_of_lt_of_le hc'.1 h2) (lt_irrefl _)
        rw [hnone]
      · have hfu : (fun v => decide (m < c v) &&
            decide (maxCount c m (u :: rest) = c v)) u = false := by
          simp [hM]
        have hfind : (u :: rest).find? (fun v => decide (m < c v) &&
            decide (maxCount c m (u :: rest) = c v)) =
            rest.find? (fun v => decide (m < c v) &&
            decide (maxCount c m (u :: rest) = c v)) :=
          List.find?_cons_of_neg _ (by simpa using hfu)
        rw [hfind, ih]
        have hMeq : maxCount c m (u :: rest) = maxCount c (c u) rest := by
          rw [maxCount_cons, hmax]
        have hpred : (fun v => decide (c u < c v) &&
            decide (maxCount c (c u) rest = c v)) =
            (fun v => decide (m < c v) &&
            decide (maxCount c m (u :: rest) = c v)) := by
          funext v
          by_cases hv : maxCount c (c u) rest = c v
          · have hge : c u ≤ maxCount c (c u) rest := le_maxCount _ _ _
            rw [hv] at hge
            rcases lt_or_eq_of_le hge with h1 | h1
            · have h2 : m < c v := lt_trans hcu h1
              simp [hv, hMeq, h1, h2]
            · exfalso
              apply hM
              rw [hMeq, hv, ← h1]
          · have hv2 : ¬ maxCount c m (u :: rest) = c v := by
              rw [hMeq]
              exact hv
            simp [hv, hv2]
        rw [hpred]
        cases hf : rest.find? (fun v => decide (m < c v) &&
            decide (maxCount c m (u :: rest) = c v)) with
        | some v => rfl
        | none =>
          exfalso
          rcases maxCount_attained c m (u :: rest) with h | ⟨v, hv, hlv⟩
          · have hle : c u ≤ maxCount c m (u :: rest) :=
              maxCount_le_of_mem c _ u (List.mem_cons_self _ _) _
            rw [h] at hle
            exact absurd (lt_of_lt_of_le hcu hle) (lt_irrefl m)
          · rcases List.mem_cons.mp hv with rfl | hv'
            · exact hM hlv
            · have h2 : m < c v := by
                have hle : c u ≤ maxCount c m (u :: rest) :=
                  maxCount_le_of_mem c _ u (List.mem_cons_self _ _) _
                rw [hlv] at hle
                exact lt_of_lt_of_le hcu hle
              have hp : (fun w => decide (m < c w) &&
                  decide (maxCount c m (u :: rest) = c w)) v = true := by
                simp [h2, hlv]
              exact absurd hp (by
                have := List.find?_eq_none.mp hf v hv'
                simpa using this)
    · rw [if_neg hcu]
      have hmax : Nat.max m (c u) = m := Nat.max_eq_left (le_of_not_lt hcu)
      have hfu : (fun v => decide (m < c v) &&
          decide (maxCount c m (u :: rest) = c v)) u = false := by
        simp [hcu]
      rw [List.find?_cons_of_neg _ (by simpa using hfu), ih]
      have hMeq : maxCount c m (u :: rest) = maxCount c m rest := by
        rw [maxCount_cons, hmax]
      rw [hMeq]

/-- Number of members voting for artifact type `t`. -/
def typeCountIn (obs : List Observation) (t : ArtifactType) : Nat :=
  (obs.filter (fun o => decide (o.artifact_type = t))).length

theorem typeCountIn_append_one (pre : List Observation) (o : Observation)
    (t : ArtifactType) :
    typeCountIn (pre ++ [o]) t =
      typeCountIn pre t + (if o.artifact_type = t then 1 else 0) := by
  unfold typeCountIn
  rw [List.filter_append, List.length_append]
  congr 1
  by_cases h : o.artifact_type = t <;> simp [h]

theorem typeCountIn_zero_of_not_mem (pre : List Observation) (t : ArtifactType)
    (h : t ∉ pre.map (fun x => x.artifact_type)) :
    typeCountIn pre t = 0 := by
  unfold typeCountIn
  rw [List.length_eq_zero]
  rw [List.filter_eq_nil]
  intro x hx
  simp only [decide_eq_true_eq]
  intro hc
  exact h (hc ▸ List.mem_map_of_mem _ hx)

theorem bumpType_canon (pre : List Observation) (o : Observation) :
    bumpType ((jsSetList (pre.map (fun x => x.artifact_type))).map
        (fun t => (t, typeCountIn pre t))) o.artifact_type =
      (jsSetList ((pre ++ [o]).map (fun x => x.artifact_type))).map
        (fun t => (t, typeCountIn (pre ++ [o]) t)) := by
  have hkeys : jsSetList ((pre ++ [o]).map (fun x => x.artifact_type)) =
      if o.artifact_type ∈ jsSetList (pre.map (fun x => x.artifact_type))
      then jsSetList (pre.map (fun x => x.artifact_type))
      else jsSetList (pre.map (fun x => x.artifact_type)) ++ [o.artifact_type] := by
    rw [List.map_append]
    exact jsSetList_append_singleton _ _
  unfold bumpType
  by_cases hmem : o.artifact_type ∈ jsSetList (pre.map (fun x => x.artifact_type))
  · have hany : (((jsSetList (pre.map (fun x => x.artifact_type))).map
        (fun t => (t, typeCountIn pre t))).any
        (fun p => decide (p.1 = o.artifact_type))) = true := by
      rw [List.any_eq_true]
      exact ⟨(o.artifact_type, typeCountIn pre o.artifact_type),
        List.mem_map_of_mem _ hmem, by simp⟩
    rw [if_pos hany, hkeys, if_pos hmem, List.map_map]
    apply List.map_congr_left
    intro t ht
    by_cases hT : t = o.artifact_type
    · subst hT
      simp [typeCountIn_append_one]
    · have hT' : ¬ o.artifact_type = t := fun h => hT h.symm
      simp [Function.comp, hT, typeCountIn_append_one, hT']
  · have hany : (((jsSetList (pre.map (fun x => x.artifact_type))).map
        (fun t => (t, typeCountIn pre t))).any
        (fun p => decide (p.1 = o.artifact_type))) = false := by
      cases hq : ((jsSetList (pre.map (fun x => x.artifact_type))).map
          (fun t => (t, typeCountIn pre t))).any
          (fun p => decide (p.1 = o.artifact_type)) with
      | false => rfl
      | true =>
        exfalso
        rcases List.any_eq_true.mp hq with ⟨p, hp, hpe⟩
        rcases List.mem_map.mp hp with ⟨t, ht, rfl⟩
        simp only [decide_eq_true_eq] at hpe
        exact hmem (hpe ▸ ht)
    rw [if_neg (by rw [hany]; exact Bool.false_ne_true), hkeys, if_neg hmem,
      List.map_append]
    congr 1
    · apply List.map_congr_left
      intro t ht
      have htn : ¬ o.artifact_type = t := by
        intro h
        exact hmem (h ▸ ht)
      rw [typeCountIn_append_one, if_neg htn, Nat.add_zero]
    · have h0 : typeCountIn pre o.artifact_type = 0 :=
        typeCountIn_zero_of_not_mem pre o.artifact_type
          (fun h => hmem ((mem_jsSetList _ _).mpr h))
      simp [typeCountIn_append_one, h0]

theorem typeCounts_canon_aux (obs : List Observation) (pre : List Observation) :
    obs.foldl (fun acc o => bumpType acc o.artifact_type)
        ((jsSetList (pre.map (fun x => x.artifact_type))).map
          (fun t => (t, typeCountIn pre t))) =
      (jsSetList ((pre ++ obs).map (fun x => x.artifact_type))).map
        (fun t => (t, typeCountIn (pre ++ obs) t)) := by
  induction obs generalizing pre with
  | nil =>
    rw [List.append_nil]
    rfl
  | cons o rest ih =>
    rw [List.foldl_cons, bumpType_canon pre o, ih (pre ++ [o])]
    simp only [List.append_assoc, List.singleton_append]

theorem typeCounts_canon (obs : List Observation) :
    typeCounts obs = (jsSetList (obs.map (fun x => x.artifact_type))).map
      (fun t => (t, typeCountIn obs t)) := by
  have h := typeCounts_canon_aux obs []
  simpa [typeCounts] using h

/-- The claim's majority vote: among the artifact types in encounter order
(order of first occurrence during vote accumulation), the first one whose
vote count attains the maximum. -/
def specMajority (obs : List Observation) : Option ArtifactType :=
  let order := jsSetList (obs.map (fun o => o.artifact_type))
  order.find? (fun t => decide (typeCountIn obs t =
    maxCount (typeCountIn obs) 0 order))

theorem majorityType_eq_specMajority (obs : List Observation) (hne : obs ≠ []) :
    some (majorityType (typeCounts obs)) = specMajority obs := by
  have hfold : majorityType (typeCounts obs) =
      ((jsSetList (obs.map (fun o => o.artifact_type))).foldl
        (fun acc u => if acc.2 < typeCountIn obs u then (u, typeCountIn obs u)
          else acc) (ArtifactType.rule, 0)).1 := by
    unfold majorityType
    rw [typeCounts_canon, List.foldl_map]
  have hpos : ∀ u ∈ jsSetList (obs.map (fun o => o.artifact_type)),
      1 ≤ typeCountIn obs u := by
    intro u hu
    rcases List.mem_map.mp ((mem_jsSetList _ _).mp hu) with ⟨o, ho, rfl⟩
    have hmem : o ∈ obs.filter (fun x => decide (x.artifact_type =
        o.artifact_type)) :=
      List.mem_filter.mpr ⟨ho, by simp⟩
    exact List.length_pos_of_mem hmem
  have hbest : 1 ≤ maxCount (typeCountIn obs) 0
      (jsSetList (obs.map (fun o => o.artifact_type))) := by
    rcases List.exists_mem_of_ne_nil obs hne with ⟨o, ho⟩
    have hu : o.artifact_type ∈ jsSetList (obs.map (fun x => x.artifact_type)) :=
      (mem_jsSetList _ _).mpr (List.mem_map_of_mem _ ho)
    exact le_trans (hpos _ hu) (maxCount_le_of_mem _ _ _ hu 0)
  have hpred : (fun u => decide (0 < typeCountIn obs u) &&
      decide (maxCount (typeCountIn obs) 0
        (jsSetList (obs.map (fun o => o.artifact_type))) = typeCountIn obs u)) =
      (fun t => decide (typeCountIn obs t = maxCount (typeCountIn obs) 0
        (jsSetList (obs.map (fun o => o.artifact_type))))) := by
    funext u
    by_cases hu : typeCountIn obs u = maxCount (typeCountIn obs) 0
        (jsSetList (obs.map (fun o => o.artifact_type)))
    · have h0 : 0 < typeCountIn obs u := by
        rw [hu]
        exact lt_of_lt_of_le Nat.zero_lt_one hbest
      have hmx : 0 < maxCount (typeCountIn obs) 0
          (jsSetList (obs.map (fun o => o.artifact_type))) :=
        lt_of_lt_of_le Nat.zero_lt_one hbest
      simp [hu, h0, hmx]
    · have hu' : ¬ maxCount (typeCountIn obs) 0
          (jsSetList (obs.map (fun o => o.artifact_type))) = typeCountIn obs u :=
        fun h => hu h.symm
      simp [hu, hu']
  rw [hfold, pick_aux]
  unfold specMajority
  rw [hpred]
  cases hf : (jsSetList (obs.map (fun o => o.artifact_type))).find?
      (fun t => decide (typeCountIn obs t = maxCount (typeCountIn obs) 0
        (jsSetList (obs.map (fun o => o.artifact_type))))) with
  | some u => rfl
  | none =>
    exfalso
    rcases maxCount_attained (typeCountIn obs) 0
        (jsSetList (obs.map (fun o => o.artifact_type))) with h | ⟨v, hv, hlv⟩
    · rw [h] at hbest
      exact absurd hbest (by omega)
    · have hp := List.find?_eq_none.mp hf v hv
      apply hp
      simp [hlv]

theorem clusterObservations_build (obs : List Observation)
    (g : ObservationGroup) (hg : g ∈ clusterObservations obs) :
    ∃ f rest, g.observations = f :: rest ∧
      g.tags = jsSetList (g.observations.flatMap (fun o => o.tags)) ∧
      g.artifact_type = majorityType (typeCounts g.observations) ∧
      g.suggested_name = slugOf g.tags f.id := by
  unfold clusterObservations at hg
  by_cases he : obs.isEmpty
  · rw [if_pos he] at hg
    simp at hg
  · rw [if_neg he] at hg
    rw [mem_sortBy] at hg
    rcases List.mem_filterMap.mp hg with ⟨members, _, hbuild⟩
    cases members with
    | nil => simp [buildGroup] at hbuild
    | cons f rest =>
      rcases Option.some.inj hbuild with rfl
      exact ⟨f, rest, rfl, rfl, rfl, rfl⟩

/-- C6 (amended): every group produced by the clustering engine is nonempty,
its tag set is the union of its member tag sets, its artifact type is the
majority vote with ties broken by encounter order of the vote accumulation,
its suggested name is the slug of its first two union tags — joined by
hyphens, stripped to the characters [a-zA-Z0-9-] (the regex is
case-insensitive, so uppercase letters survive), truncated to 25 characters,
with the unnamed-id-suffix fallback when the stripped text is empty — and
the returned list is sorted by descending member count. -/
theorem clusterObservations_groups_amended :
    (∀ (obs : List Observation) (g : ObservationGroup),
      g ∈ clusterObservations obs →
      g.observations ≠ [] ∧
      (∀ t, t ∈ g.tags ↔ ∃ m ∈ g.observations, t ∈ m.tags) ∧
      some g.artifact_type = specMajority g.observations ∧
      ∃ f rest, g.observations = f :: rest ∧
        g.suggested_name = slugOf g.tags f.id) ∧
    (∀ obs : List Observation, (clusterObservations obs).Pairwise
      (fun a b => b.observations.length ≤ a.observations.length)) ∧
    (∀ (allTags : List String) (fid : String),
      slugOf allTags fid = "unnamed-" ++ lastChars 4 fid ∨
      (slugOf allTags fid ≠ "" ∧ (slugOf allTags fid).toList.length ≤ 25 ∧
        ∀ c ∈ (slugOf allTags fid).toList, isSlugKeepChar c = true)) := by
  refine ⟨?_, ?_, ?_⟩
  · intro obs g hg
    rcases clusterObservations_build obs g hg with
      ⟨f, rest, hobs, htags, htype, hname⟩
    have hne : g.observations ≠ [] := by
      rw [hobs]
      exact List.cons_ne_nil f rest
    refine ⟨hne, ?_, ?_, ⟨f, rest, hobs, hname⟩⟩
    · intro t
      rw [htags, mem_jsSetList, List.mem_flatMap]
    · rw [htype]
      exact majorityType_eq_specMajority g.observations hne
  · intro obs
    unfold clusterObservations
    by_cases he : obs.isEmpty
    · rw [if_pos he]
      exact List.Pairwise.nil
    · rw [if_neg he]
      have htot : ∀ a b : ObservationGroup,
          decide (b.observations.length ≤ a.observations.length) = true ∨
          decide (a.observations.length ≤ b.observations.length) = true := by
        intro a b
        rcases Nat.le_total b.observations.length a.observations.length with h | h
        · exact Or.inl (decide_eq_true h)
        · exact Or.inr (decide_eq_true h)
      have htr : ∀ a b c : ObservationGroup,
          decide (b.observations.length ≤ a.observations.length) = true →
          decide (c.observations.length ≤ b.observations.length) = true →
          decide (c.observations.length ≤ a.observations.length) = true := by
        intro a b c h1 h2
        exact decide_eq_true (le_trans (of_decide_eq_true h2)
          (of_decide_eq_true h1))
      have := pairwise_sortBy (fun a b : ObservationGroup =>
        decide (b.observations.length ≤ a.observations.length)) htot htr
        ((List.map (fun p => p.2) (clusterPhase1
          (obs.map (fun o => { o with tags := sortTags o.tags })))).filterMap
          buildGroup)
      exact this.imp (fun h => of_decide_eq_true h)
  · intro allTags fid
    unfold slugOf
    by_cases hs : takeStr 25 (String.mk
        ((joinStr '-' (allTags.take 2)).toList.filter isSlugKeepChar)) = ""
    · rw [if_pos hs]
      exact Or.inl rfl
    · rw [if_neg hs]
      refine Or.inr ⟨hs, ?_, ?_⟩
      · show (((joinStr '-' (allTags.take 2)).toList.filter
          isSlugKeepChar).take 25).length ≤ 25
        rw [List.length_take]
        exact min_le_left _ _
      · intro c hc
        have hc2 := List.mem_of_mem_take hc
        exact List.of_mem_filter hc2

/-- Observation with a capitalized tag. -/
def slugCexObs : Observation :=
  { id := "obs_5_eeee", ts := "2024-01-05T00:00:00Z", session := "s"
  , summary := "uppercase tags survive the slug regex intact"
  , context := none, tags := ["AB"], recommendation := ""
  , artifact_type := ArtifactType.rule, source := "manual"
  , session_ref := none, processed := false }

/-- The claim's literal slug stripping: only [a-z0-9-] kept. -/
def claimSlugStrip (tags : List String) : String :=
  takeStr 25 (String.mk ((joinStr '-' (tags.take 2)).toList.filter
    (fun c => ('a' ≤ c && c ≤ 'z') || c.isDigit || c = '-')))

/-- C6 counterexample: a group whose first tag is the capitalized AB gets
suggested name AB — the regex is case-insensitive, so uppercase letters are
kept — while stripping to the claim's literal [a-z0-9-] set would leave the
empty string and force the unnamed fallback.  The produced name is neither
the claim's stripped text nor the fallback. -/
theorem clusterObservations_slug_cex :
    (clusterObservations [slugCexObs]).map (fun g => g.suggested_name) =
      ["AB"] ∧
    claimSlugStrip ["AB"] = "" ∧
    ("AB" : String) ≠ claimSlugStrip ["AB"] ∧
    ("AB" : String) ≠ "unnamed-" ++ lastChars 4 slugCexObs.id := by
  decide

/-- The group produced by clustering the single AB-tagged observation. -/
def gABExpected : ObservationGroup :=
  { tags := ["AB"], observations := [slugCexObs]
  , artifact_type := ArtifactType.rule, suggested_name := "AB" }

theorem clusterObservations_groups_witness :
    (∀ t, t ∈ gABExpected.tags ↔ ∃ m ∈ gABExpected.observations, t ∈ m.tags) ∧
    some gABExpected.artifact_type = specMajority gABExpected.observations ∧
    (clusterObservations [slugCexObs]).Pairwise
      (fun a b => b.observations.length ≤ a.observations.length) := by
  have hg : gABExpected ∈ clusterObservations [slugCexObs] := by decide
  have h := clusterObservations_groups_amended
  have h1 := h.1 [slugCexObs] gABExpected hg
  exact ⟨h1.2.1, h1.2.2.1, h.2.1 [slugCexObs]⟩

/-! ## Claim C1: the greedy Jaccard merge -/

/-- The tag set a group's key string stands for: the key split on commas. -/
def keyTagsFinset (k : String) : Finset String :=
  (splitOnChar ',' k).toFinset

/-- Jaccard similarity of two tag sets, as an exact rational (0 when the
union is empty, matching the guarded double comparison in the source). -/
def jaccardSim (A B : Finset String) : ℚ :=
  ((A ∩ B).card : ℚ) / ((A ∪ B).card : ℚ)

/-- The claim's merge condition: Jaccard similarity of the group's key tag
set and the observation's tag set strictly greater than 0.3. -/
def specMerge (groupKey : String) (tags : List String) : Prop :=
  3 / 10 < jaccardSim (keyTagsFinset groupKey) tags.toFinset

theorem simMergeB_iff_specMerge (k : String) (t : List String) :
    simMergeB k t = true ↔ specMerge k t := by
  have hinter : ((jsSetList t).filter
      (fun x => (jsSetList (splitOnChar ',' k)).contains x)).length =
      (t.toFinset ∩ (splitOnChar ',' k).toFinset).card := by
    have hnd : ((jsSetList t).filter
        (fun x => (jsSetList (splitOnChar ',' k)).contains x)).Nodup :=
      (nodup_jsSetList t).filter _
    rw [← List.toFinset_card_of_nodup hnd]
    congr 1
    ext x
    simp only [List.mem_toFinset, List.mem_filter, mem_jsSetList,
      Finset.mem_inter]
    constructor
    · rintro ⟨h1, h2⟩
      exact ⟨h1, (mem_jsSetList _ _).mp ((list_contains_iff _ _).mp h2)⟩
    · rintro ⟨h1, h2⟩
      exact ⟨h1, (list_contains_iff _ _).mpr ((mem_jsSetList _ _).mpr h2)⟩
  have hunion : (jsSetList (jsSetList t ++ jsSetList (splitOnChar ',' k))).length =
      (t.toFinset ∪ (splitOnChar ',' k).toFinset).card := by
    rw [length_jsSetList]
    congr 1
    ext x
    simp [List.mem_toFinset, List.mem_append, mem_jsSetList,
      Finset.mem_union]
  unfold simMergeB specMerge jaccardSim keyTagsFinset
  dsimp only
  rw [hinter, hunion, Finset.inter_comm t.toFinset,
    Finset.union_comm t.toFinset]
  rw [Bool.and_eq_true, decide_eq_true_eq, decide_eq_true_eq]
  constructor
  · rintro ⟨hu, hlt⟩
    have hu' : (0 : ℚ) <
        (((splitOnChar ',' k).toFinset ∪ t.toFinset).card : ℚ) := by
      exact_mod_cast hu
    rw [div_lt_div_iff (by norm_num) hu']
    have hn : 3 * ((splitOnChar ',' k).toFinset ∪ t.toFinset).card <
        ((splitOnChar ',' k).toFinset ∩ t.toFinset).card * 10 := by omega
    exact_mod_cast hn
  · intro h
    have hu : 0 < ((splitOnChar ',' k).toFinset ∪ t.toFinset).card := by
      by_contra hc
      have h0 : (((splitOnChar ',' k).toFinset ∪ t.toFinset).card : ℚ) = 0 := by
        exact_mod_cast (by omega :
          ((splitOnChar ',' k).toFinset ∪ t.toFinset).card = 0)
      rw [h0, div_zero] at h
      norm_num at h
    refine ⟨hu, ?_⟩
    have hu' : (0 : ℚ) <
        (((splitOnChar ',' k).toFinset ∪ t.toFinset).card : ℚ) := by
      exact_mod_cast hu
    rw [div_lt_div_iff (by norm_num) hu'] at h
    have hn : 3 * ((splitOnChar ',' k).toFinset ∪ t.toFinset).card <
        ((splitOnChar ',' k).toFinset ∩ t.toFinset).card * 10 := by
      exact_mod_cast h
    omega

theorem specMerge_of_simMergeB_false (k : String) (t : List String)
    (h : simMergeB k t = false) : ¬ specMerge k t := by
  intro hsp
  rw [(simMergeB_iff_specMerge k t).mpr hsp] at h
  exact Bool.noConfusion h

theorem simMergeB_false_of_not_specMerge (k : String) (t : List String)
    (h : ¬ specMerge k t) : simMergeB k t = false := by
  cases hs : simMergeB k t with
  | false => rfl
  | true => exact absurd ((simMergeB_iff_specMerge k t).mp hs) h

theorem mergeFirst_eq_of_first (o : Observation)
    (pre : List (String × List Observation)) (gp : String × List Observation)
    (post : List (String × List Observation))
    (hpre : ∀ g' ∈ pre, simMergeB g'.1 o.tags = false)
    (hgp : simMergeB gp.1 o.tags = true) :
    mergeFirst o (pre ++ gp :: post) =
      some (pre ++ (gp.1, gp.2 ++ [o]) :: post) := by
  induction pre with
  | nil =>
    rcases gp with ⟨k, os⟩
    simp only [List.nil_append, mergeFirst]
    rw [if_pos hgp]
  | cons g' pre' ih =>
    rcases g' with ⟨k', os'⟩
    have hk' : simMergeB k' o.tags = false :=
      hpre (k', os') (List.mem_cons_self _ _)
    simp only [List.cons_append, mergeFirst]
    rw [if_neg (by rw [hk']; exact Bool.false_ne_true)]
    simp only [List.append_eq]
    rw [ih (fun g hg => hpre g (List.mem_cons_of_mem _ hg))]
    rfl

theorem mergeFirst_none_of_all (o : Observation)
    (groups : List (String × List Observation))
    (h : ∀ g ∈ groups, simMergeB g.1 o.tags = false) :
    mergeFirst o groups = none := by
  induction groups with
  | nil => rfl
  | cons g rest ih =>
    rcases g with ⟨k, os⟩
    have hk : simMergeB k o.tags = false := h (k, os) (List.mem_cons_self _ _)
    simp only [mergeFirst]
    rw [if_neg (by rw [hk]; exact Bool.false_ne_true)]
    rw [ih (fun g hg => h g (List.mem_cons_of_mem _ hg))]
    rfl

theorem insertObs_merge_first (o : Observation)
    (pre : List (String × List Observation)) (gp : String × List Observation)
    (post : List (String × List Observation))
    (hpre : ∀ g' ∈ pre, ¬ specMerge g'.1 o.tags)
    (hgp : specMerge gp.1 o.tags) :
    insertObs (pre ++ gp :: post) o = pre ++ (gp.1, gp.2 ++ [o]) :: post := by
  unfold insertObs
  rw [mergeFirst_eq_of_first o pre gp post
    (fun g' hg' => simMergeB_false_of_not_specMerge _ _ (hpre g' hg'))
    ((simMergeB_iff_specMerge _ _).mpr hgp)]

theorem insertObs_new_group (o : Observation)
    (groups : List (String × List Observation))
    (hall : ∀ g ∈ groups, ¬ specMerge g.1 o.tags)
    (hkey : obsKey o ∉ groups.map Prod.fst) :
    insertObs groups o = groups ++ [(obsKey o, [o])] := by
  unfold insertObs
  rw [mergeFirst_none_of_all o groups
    (fun g hg => simMergeB_false_of_not_specMerge _ _ (hall g hg))]
  unfold mapSet
  have hany : (groups.any (fun p => decide (p.1 = obsKey o))) = false := by
    cases hq : groups.any (fun p => decide (p.1 = obsKey o)) with
    | false => rfl
    | true =>
      exfalso
      rcases List.any_eq_true.mp hq with ⟨p, hp, hpe⟩
      simp only [decide_eq_true_eq] at hpe
      exact hkey (hpe ▸ List.mem_map_of_mem Prod.fst hp)
  rw [if_neg (by rw [hany]; exact Bool.false_ne_true)]

theorem keyTagsFinset_obsKey (o : Observation) (hne : o.tags ≠ [])
    (hcf : ∀ t ∈ o.tags, ',' ∉ t.toList) :
    keyTagsFinset (obsKey o) = o.tags.toFinset := by
  unfold obsKey
  rw [if_pos (by
    have := List.length_pos.mpr hne
    omega)]
  unfold keyTagsFinset
  rw [splitOnChar_joinStr ',' (sortTags o.tags)
    (by
      intro h
      apply hne
      have := sortTags_length o.tags
      rw [h] at this
      exact List.length_eq_zero.mp this.symm)
    (fun s hs => hcf s ((sortTags_mem s o.tags).mp hs))]
  ext x
  simp [List.mem_toFinset, sortTags_mem]

theorem simMergeB_nil_tags (k : String) : simMergeB k [] = false := by
  unfold simMergeB
  simp [jsSetList]

theorem simMergeB_false_of_sentinel (k : String) (tags : List String)
    (hsplit : splitOnChar ',' k = [k]) (hnm : k ∉ tags) :
    simMergeB k tags = false := by
  unfold simMergeB
  rw [hsplit]
  dsimp only
  have hfilter : (jsSetList tags).filter
      (fun x => (jsSetList [k]).contains x) = [] := by
    rw [List.filter_eq_nil_iff]
    intro x hx
    have hxt : x ∈ tags := (mem_jsSetList _ _).mp hx
    have hxk : x ≠ k := fun h => hnm (h ▸ hxt)
    intro hc
    have := (list_contains_iff _ _).mp hc
    have : x ∈ [k] := by
      have hk : jsSetList [k] = [k] := rfl
      rw [← hk]
      exact (mem_jsSetList _ _).mpr (by
        rw [← hk] at this
        exact (mem_jsSetList _ _).mp this)
    exact hxk (List.mem_singleton.mp this)
  rw [hfilter]
  simp

theorem mergeFirst_mem_preserved (e : Observation)
    (groups g : List (String × List Observation)) (k : String)
    (v : List Observation) (hmem : (k, v) ∈ groups)
    (hsim : simMergeB k e.tags = false)
    (h : mergeFirst e groups = some g) :
    (k, v) ∈ g := by
  induction groups generalizing g with
  | nil => simp at hmem
  | cons p rest ih =>
    rcases p with ⟨k', os'⟩
    by_cases hs : simMergeB k' e.tags
    · rw [mergeFirst, if_pos hs] at h
      rcases Option.some.inj h with rfl
      rcases List.mem_cons.mp hmem with heq | hmem'
      · exfalso
        have hk : k = k' := congrArg Prod.fst heq
        rw [← hk] at hs
        rw [hsim] at hs
        exact Bool.noConfusion hs
      · exact List.mem_cons_of_mem _ hmem'
    · rw [mergeFirst, if_neg hs] at h
      cases hrec : mergeFirst e rest with
      | none =>
        rw [hrec] at h
        simp at h
      | some r =>
        rw [hrec] at h
        rcases Option.some.inj h with rfl
        rcases List.mem_cons.mp hmem with heq | hmem'
        · exact heq ▸ List.mem_cons_self _ _
        · exact List.mem_cons_of_mem _ (ih r hmem' hrec)

theorem mapSet_mem_self (groups : List (String × List Observation))
    (k : String) (v : List Observation) :
    (k, v) ∈ mapSet groups k v := by
  unfold mapSet
  by_cases hany : (groups.any (fun p => decide (p.1 = k))) = true
  · rw [if_pos hany]
    rcases List.any_eq_true.mp hany with ⟨p, hp, hpe⟩
    simp only [decide_eq_true_eq] at hpe
    refine List.mem_map.mpr ⟨p, hp, ?_⟩
    rw [if_pos hpe]
  · rw [if_neg hany]
    exact List.mem_append.mpr (Or.inr (List.mem_singleton.mpr rfl))

theorem insertObs_preserves (groups : List (String × List Observation))
    (e : Observation) (k : String) (v : List Observation)
    (hmem : (k, v) ∈ groups) (hsim : simMergeB k e.tags = false)
    (hkey : obsKey e = k → [e] = v) :
    (k, v) ∈ insertObs groups e := by
  unfold insertObs
  cases hmf : mergeFirst e groups with
  | some g => exact mergeFirst_mem_preserved e groups g k v hmem hsim hmf
  | none =>
    unfold mapSet
    by_cases hany : (groups.any (fun p => decide (p.1 = obsKey e))) = true
    · rw [if_pos hany]
      by_cases hk : obsKey e = k
      · have hv := hkey hk
        refine List.mem_map.mpr ⟨(k, v), hmem, ?_⟩
        have hcond : ((k, v) : String × List Observation).1 = obsKey e := hk.symm
        rw [if_pos hcond, hk, hv]
      · refine List.mem_map.mpr ⟨(k, v), hmem, ?_⟩
        rw [if_neg (fun h => hk (Eq.symm h))]
    · rw [if_neg hany]
      exact List.mem_append.mpr (Or.inl hmem)

theorem joinStr_single (sep : Char) (t : String) : joinStr sep [t] = t := by
  unfold joinStr
  simp only [List.map_cons, List.map_nil]
  have h : List.intercalate [sep] [t.toList] = t.toList := by
    simp [List.intercalate]
  rw [h]
  exact stringMk_toList t

theorem obsKey_sorted (e : Observation) :
    obsKey { e with tags := sortTags e.tags } = obsKey e := by
  unfold obsKey
  dsimp only
  rw [sortTags_idem, sortTags_length]

theorem obsKey_tagged_cases (e : Observation) (hne : e.tags ≠ []) :
    (∃ t ∈ e.tags, obsKey e = t) ∨ (',' ∈ (obsKey e).toList) := by
  unfold obsKey
  rw [if_pos (by
    have := List.length_pos.mpr hne
    omega)]
  cases h : sortTags e.tags with
  | nil =>
    exfalso
    have := sortTags_length e.tags
    rw [h] at this
    exact hne (List.length_eq_zero.mp this.symm)
  | cons t rest =>
    cases rest with
    | nil =>
      left
      refine ⟨t, ?_, joinStr_single ',' t⟩
      apply (sortTags_mem t e.tags).mp
      rw [h]
      exact List.mem_cons_self t []
    | cons t2 rest2 =>
      right
      exact sep_mem_joinStr_two ',' t t2 rest2

theorem foldl_insert_preserved (l : List Observation)
    (G : List (String × List Observation)) (k : String) (v : List Observation)
    (hmem : (k, v) ∈ G)
    (hl : ∀ e ∈ l, simMergeB k e.tags = false ∧ (obsKey e = k → [e] = v)) :
    (k, v) ∈ l.foldl insertObs G := by
  induction l generalizing G with
  | nil => simpa using hmem
  | cons e rest ih =>
    rw [List.foldl_cons]
    refine ih (insertObs G e) ?_ (fun e' he' => hl e' (List.mem_cons_of_mem _ he'))
    exact insertObs_preserves G e k v hmem
      (hl e (List.mem_cons_self _ _)).1 (hl e (List.mem_cons_self _ _)).2

/-- Sanity conditions under which the untagged sentinel keys are really
unique: stored ids are pairwise distinct and comma-free, and no tag spells
out the sentinel key of an untagged observation. -/
def SaneCluster (obs : List Observation) : Prop :=
  obs.Pairwise (fun a b => a.id ≠ b.id) ∧
  (∀ e ∈ obs, ',' ∉ e.id.toList) ∧
  (∀ e ∈ obs, ∀ e' ∈ obs, e'.tags = [] → ("untagged-" ++ e'.id) ∉ e.tags)

theorem clusterObservations_untagged_singleton (obs : List Observation)
    (hs : SaneCluster obs) (o : Observation) (ho : o ∈ obs)
    (hot : o.tags = []) :
    ∃ g ∈ clusterObservations obs, g.observations = [o] := by
  rcases hs with ⟨hids, hcf, hsent⟩
  rcases List.append_of_mem ho with ⟨pre, post, rfl⟩
  have hoin : o ∈ pre ++ o :: post :=
    List.mem_append.mpr (Or.inr (List.mem_cons_self _ _))
  have hskcf : ',' ∉ ("untagged-" ++ o.id).toList := by
    have hdata : ("untagged-" ++ o.id).toList =
        "untagged-".toList ++ o.id.toList := String.data_append _ _
    rw [hdata]
    intro hc
    rcases List.mem_append.mp hc with h | h
    · exact absurd h (by decide)
    · exact hcf o hoin h
  have hsplit : splitOnChar ',' ("untagged-" ++ o.id) =
      ["untagged-" ++ o.id] := splitOnChar_self ',' _ hskcf
  have hσo : ({ o with tags := sortTags o.tags } : Observation) = o := by
    have h1 : sortTags o.tags = o.tags := by rw [hot]; rfl
    rw [h1]
  have hko : obsKey o = "untagged-" ++ o.id := by
    unfold obsKey
    rw [hot]
    rfl
  have hphase : ("untagged-" ++ o.id, [o]) ∈ clusterPhase1
      ((pre ++ o :: post).map (fun x => { x with tags := sortTags x.tags })) := by
    unfold clusterPhase1
    rw [List.map_append, List.map_cons, List.foldl_append, List.foldl_cons]
    rw [hσo]
    refine foldl_insert_preserved _ _ _ _ ?_ ?_
    · unfold insertObs
      rw [mergeFirst_none_of_all o _ (fun g hg => by
        rw [hot]
        exact simMergeB_nil_tags g.1)]
      rw [hko]
      exact mapSet_mem_self _ _ [o]
    · intro e' he'
      rcases List.mem_map.mp he' with ⟨e, he, rfl⟩
      have heobs : e ∈ pre ++ o :: post :=
        List.mem_append.mpr (Or.inr (List.mem_cons_of_mem _ he))
      constructor
      · apply simMergeB_false_of_sentinel _ _ hsplit
        intro hmemtag
        have hmt : "untagged-" ++ o.id ∈ e.tags := (sortTags_mem _ _).mp hmemtag
        exact hsent e heobs o hoin hot hmt
      · intro hkeq
        exfalso
        rw [obsKey_sorted e] at hkeq
        by_cases het : e.tags = []
        · have heq : "untagged-" ++ e.id = "untagged-" ++ o.id := by
            rw [← hkeq]
            unfold obsKey
            rw [het]
            rfl
          have hid : e.id = o.id := string_append_left_cancel _ heq
          have hpw : (o :: post).Pairwise (fun a b => a.id ≠ b.id) :=
            hids.sublist (List.sublist_append_right pre (o :: post))
          exact (List.pairwise_cons.mp hpw).1 e he hid.symm
        · rcases obsKey_tagged_cases e het with ⟨t, ht, hkt⟩ | hcm
          · have hts : t = "untagged-" ++ o.id := by rw [← hkt, hkeq]
            exact hsent e heobs o hoin hot (hts ▸ ht)
          · rw [hkeq] at hcm
            exact hskcf hcm
  have hne' : ((pre ++ o :: post).isEmpty) = false := by
    cases hpp : pre ++ o :: post with
    | nil => exact absurd hpp (List.ne_nil_of_mem ho)
    | cons a t => rfl
  unfold clusterObservations
  rw [if_neg (by rw [hne']; exact Bool.false_ne_true)]
  have hmem2 : [o] ∈ (clusterPhase1 ((pre ++ o :: post).map
      (fun x => { x with tags := sortTags x.tags }))).map (fun p => p.2) :=
    List.mem_map_of_mem (fun p => p.2) hphase
  cases hb : buildGroup [o] with
  | none => simp [buildGroup] at hb
  | some g =>
    refine ⟨g, ?_, buildGroup_observations [o] g hb⟩
    rw [mem_sortBy]
    exact List.mem_filterMap.mpr ⟨[o], hmem2, hb⟩

/-- C1 (amended): processing observations in input order, an observation is
appended to the first already-open group whose key tag set has Jaccard
similarity with its tag set strictly greater than 0.3, and otherwise opens a
new group keyed by its own tags (its key tag set is its own tag set when the
tags are comma-free, and a fresh sentinel when untagged); two tag sets at
similarity exactly 0.3 are never merged; and — provided ids are distinct and
comma-free and no tag spells out another observation's untagged sentinel
key — every observation with an empty tag set forms a singleton group. -/
theorem clusterObservations_spec_amended :
    (∀ (o : Observation) (pre : List (String × List Observation))
        (gp : String × List Observation)
        (post : List (String × List Observation)),
      (∀ g' ∈ pre, ¬ specMerge g'.1 o.tags) → specMerge gp.1 o.tags →
      insertObs (pre ++ gp :: post) o = pre ++ (gp.1, gp.2 ++ [o]) :: post) ∧
    (∀ (o : Observation) (groups : List (String × List Observation)),
      (∀ g ∈ groups, ¬ specMerge g.1 o.tags) →
      obsKey o ∉ groups.map Prod.fst →
      insertObs groups o = groups ++ [(obsKey o, [o])]) ∧
    (∀ o : Observation, o.tags ≠ [] → (∀ t ∈ o.tags, ',' ∉ t.toList) →
      keyTagsFinset (obsKey o) = o.tags.toFinset) ∧
    (∀ (k : String) (tags : List String),
      jaccardSim (keyTagsFinset k) tags.toFinset = 3 / 10 →
      simMergeB k tags = false) ∧
    (∀ (obs : List Observation) (o : Observation),
      SaneCluster obs → o ∈ obs → o.tags = [] →
      ∃ g ∈ clusterObservations obs, g.observations = [o]) := by
  refine ⟨?_, ?_, ?_, ?_, ?_⟩
  · intro o pre gp post hpre hgp
    exact insertObs_merge_first o pre gp post hpre hgp
  · intro o groups hall hkey
    exact insertObs_new_group o groups hall hkey
  · intro o hne hcf
    exact keyTagsFinset_obsKey o hne hcf
  · intro k tags h
    cases hs : simMergeB k tags with
    | false => rfl
    | true =>
      exfalso
      have hsp := (simMergeB_iff_specMerge k tags).mp hs
      unfold specMerge at hsp
      rw [h] at hsp
      exact lt_irrefl _ hsp
  · intro obs o hs ho hot
    exact clusterObservations_untagged_singleton obs hs o ho hot

/-- Untagged observation whose sentinel key a later tag spells out. -/
def untaggedCexObs : Observation :=
  { id := "obs_1_aaaa", ts := "2024-01-01T00:00:00Z", session := "s"
  , summary := "an untagged observation that should form a singleton"
  , context := none, tags := [], recommendation := ""
  , artifact_type := ArtifactType.rule, source := "manual"
  , session_ref := none, processed := false }

/-- Later observation carrying the sentinel string as an ordinary tag. -/
def sentinelTagObs : Observation :=
  { id := "obs_2_bbbb", ts := "2024-01-02T00:00:00Z", session := "s"
  , summary := "a tagged observation that hijacks the sentinel key"
  , context := none, tags := ["untagged-obs_1_aaaa"], recommendation := ""
  , artifact_type := ArtifactType.rule, source := "manual"
  , session_ref := none, processed := false }

/-- C1 counterexample: the untagged observation does not form a singleton
group — a later observation tagged with the literal string
untagged-obs_1_aaaa has Jaccard similarity 1 with the sentinel key and is
merged into the untagged group. -/
theorem clusterObservations_singleton_cex :
    untaggedCexObs.tags = [] ∧
    (clusterObservations [untaggedCexObs, sentinelTagObs]).map
      (fun g => g.observations.map (fun o => o.id)) =
      [["obs_1_aaaa", "obs_2_bbbb"]] ∧
    ¬ ∃ g ∈ clusterObservations [untaggedCexObs, sentinelTagObs],
        g.observations = [untaggedCexObs] := by
  decide

/-- Tagged observation used to instantiate the merge characterization. -/
def obsTagB : Observation :=
  { id := "obs_6_ffff", ts := "2024-01-06T00:00:00Z", session := "s"
  , summary := "a concrete observation used to exercise merging"
  , context := none, tags := ["b"], recommendation := ""
  , artifact_type := ArtifactType.rule, source := "manual"
  , session_ref := none, processed := false }

theorem clusterObservations_spec_witness :
    insertObs [("a", ([] : List Observation)), ("b", [])] obsTagB =
      [("a", []), ("b", [obsTagB])] ∧
    insertObs [] untaggedCexObs = [(obsKey untaggedCexObs, [untaggedCexObs])] ∧
    keyTagsFinset (obsKey obsTagB) = obsTagB.tags.toFinset ∧
    simMergeB "a,b,c,d,e,f,g,h" ["a", "b", "c", "x", "y"] = false ∧
    untaggedCexObs ∈ (clusterObservations [untaggedCexObs]).flatMap
      (fun g => g.observations) := by
  refine ⟨?_, ?_, ?_, ?_, ?_⟩
  · exact clusterObservations_spec_amended.1 obsTagB
      [("a", ([] : List Observation))] ("b", []) []
      (by
        intro g' hg'
        rw [List.mem_singleton] at hg'
        subst hg'
        exact specMerge_of_simMergeB_false _ _ (by decide))
      ((simMergeB_iff_specMerge _ _).mp (by decide))
  · exact clusterObservations_spec_amended.2.1 untaggedCexObs []
      (by intro g hg; simp at hg) (by simp)
  · exact clusterObservations_spec_amended.2.2.1 obsTagB (by decide) (by decide)
  · refine clusterObservations_spec_amended.2.2.2.1 "a,b,c,d,e,f,g,h"
      ["a", "b", "c", "x", "y"] ?_
    have h1 : (keyTagsFinset "a,b,c,d,e,f,g,h" ∩
        (["a", "b", "c", "x", "y"] : List String).toFinset).card = 3 := by
      decide
    have h2 : (keyTagsFinset "a,b,c,d,e,f,g,h" ∪
        (["a", "b", "c", "x", "y"] : List String).toFinset).card = 10 := by
      decide
    unfold jaccardSim
    rw [h1, h2]
    norm_num
  · rcases clusterObservations_spec_amended.2.2.2.2 [untaggedCexObs]
      untaggedCexObs
      ⟨List.pairwise_singleton _ _, by decide, by decide⟩
      (List.mem_singleton.mpr rfl) rfl with ⟨g, hg, hobs⟩
    refine List.mem_flatMap.mpr ⟨g, hg, ?_⟩
    rw [hobs]
    exact List.mem_cons_self _ _
